import Mathlib

/-!
Verification of the publication-list pipeline (publications-manage.py).

The development shallowly embeds the script's pure core: the per-record
normalizer (`formatter`), the author/citation HTML renderers
(`author2html`, `article2html`, ..., `bibtex2html`), the
classifier/orderer (`order_db`), the loading step (`read_many_bibs`)
and the driver (`mainRun`).  Bibliographic records are association
lists from field names to string values, exactly as the Python code
manipulates parsed `bibtexparser` dictionaries.  Filesystem checks are
passed in as a boolean oracle, and regular-expression substitutions of
the source are implemented as explicit character-list scanners with
the same matching semantics (leftmost, non-overlapping, greedy).
-/

namespace Pub

/-- The left protection-marker character (the opening curly brace). -/
def lbrace : Char := Char.ofNat 123

/-- The right protection-marker character (the closing curly brace). -/
def rbrace : Char := Char.ofNat 125

/-- The en-dash character used for page ranges. -/
def enDash : Char := Char.ofNat 8211

/-- The backtick character (used in the TeX left-quote digraph). -/
def backtick : Char := Char.ofNat 96

/-- The single-quote character (used in the TeX right-quote digraph). -/
def squote : Char := Char.ofNat 39

/-- ASCII whitespace as matched by the regex class in the source
(space, tab, newline, carriage return, vertical tab, form feed). -/
def isWsC (c : Char) : Bool :=
  c = ' ' || c = '\t' || c = '\n' || c = '\r' || c = Char.ofNat 11 || c = Char.ofNat 12

/-- Characters of the regex class matching a hyphen or an en-dash. -/
def isDashC (c : Char) : Bool :=
  c = '-' || c = enDash

/-- One bibliographic record: a mapping from field names to string
values, as produced by the external parser.  `ENTRYTYPE` and `ID` are
ordinary keys of the mapping, exactly as in the Python dictionaries. -/
abbrev Entry := List (String × String)

/-- Dictionary lookup, `entry[k]` guarded by `k in entry.keys()`. -/
def getField (e : Entry) (k : String) : Option String :=
  match e with
  | [] => none
  | (k', v) :: rest => if k' = k then some v else getField rest k

/-- Python exceptions surfaced by the embedded fragment. -/
inductive PyErr where
  | keyError (field : String)
  | notImplemented (msg : String)
  | unboundLocal (name : String)
  | valueError
  | assertionError
  deriving DecidableEq, Repr

instance {ε α : Type} [DecidableEq ε] [DecidableEq α] : DecidableEq (Except ε α) :=
  fun x y =>
    match x, y with
    | Except.ok a, Except.ok b =>
      if h : a = b then isTrue (by rw [h])
      else isFalse (fun hc => h (Except.ok.inj hc))
    | Except.error a, Except.error b =>
      if h : a = b then isTrue (by rw [h])
      else isFalse (fun hc => h (Except.error.inj hc))
    | Except.ok _, Except.error _ => isFalse (fun hc => Except.noConfusion hc)
    | Except.error _, Except.ok _ => isFalse (fun hc => Except.noConfusion hc)

/-- Unguarded dictionary access `entry[k]`: raises `KeyError` when the
field is absent. -/
def eGet (e : Entry) (k : String) : Except PyErr String :=
  match getField e k with
  | some v => Except.ok v
  | none => Except.error (PyErr.keyError k)

/-! ## Regex substitutions of the normalizer, as character scanners -/

/-- State of the scanner for the substitution
replacing maximal matches of (whitespace* dash+ whitespace*) by a
single hyphen: `norm` is outside a match (carrying a pending run of
whitespace not yet known to precede a dash), `inDash` is inside the
dash run of a match, `trailWs` is inside the trailing whitespace of a
match. -/
inductive DState where
  | norm
  | inDash
  | trailWs
  deriving DecidableEq

/-- Scanner for the substitution on `pages` values replacing each
leftmost non-overlapping match of (whitespace* dash+ whitespace*) by a
single hyphen.  `pend` holds, in reverse, pending whitespace that will
be discarded if a dash follows and emitted otherwise — mirroring that
the leading whitespace* of the pattern only participates in a match
when a dash comes next. -/
def collapseDashAux : DState → List Char → List Char → List Char
  | DState.norm, pend, [] => pend.reverse
  | DState.norm, pend, c :: rest =>
    if isDashC c then '-' :: collapseDashAux DState.inDash [] rest
    else if isWsC c then collapseDashAux DState.norm (c :: pend) rest
    else pend.reverse ++ c :: collapseDashAux DState.norm [] rest
  | DState.inDash, _, [] => []
  | DState.inDash, p, c :: rest =>
    if isDashC c then collapseDashAux DState.inDash p rest
    else if isWsC c then collapseDashAux DState.trailWs p rest
    else c :: collapseDashAux DState.norm [] rest
  | DState.trailWs, _, [] => []
  | DState.trailWs, p, c :: rest =>
    if isDashC c then '-' :: collapseDashAux DState.inDash p rest
    else if isWsC c then collapseDashAux DState.trailWs p rest
    else c :: collapseDashAux DState.norm [] rest

/-- The first `pages` substitution of the normalizer. -/
def collapseDash (l : List Char) : List Char :=
  collapseDashAux DState.norm [] l

/-- The second `pages` substitution: every hyphen becomes an en-dash. -/
def dashToEn (l : List Char) : List Char :=
  l.map (fun c => if c = '-' then enDash else c)

/-- Scanner for the substitution collapsing each maximal run of
newline characters into a single space; the flag records whether the
previous character belonged to a newline run. -/
def collapseNLAux : Bool → List Char → List Char
  | _, [] => []
  | prevNL, c :: rest =>
    if c = '\n' then
      if prevNL then collapseNLAux true rest
      else ' ' :: collapseNLAux true rest
    else c :: collapseNLAux false rest

/-- The newline substitution applied to every string field value. -/
def collapseNL (l : List Char) : List Char :=
  collapseNLAux false l

/-- The substitution removing every protection-marker brace. -/
def stripBraces (l : List Char) : List Char :=
  l.filter (fun c => ¬ (c = lbrace ∨ c = rbrace))

/-- Splitting on single spaces, keeping empty pieces, as the Python
string method does. -/
def splitSpace : List Char → List (List Char)
  | [] => [[]]
  | c :: rest =>
    if c = ' ' then [] :: splitSpace rest
    else
      match splitSpace rest with
      | t :: ts => (c :: t) :: ts
      | [] => [[c]]

/-- Joining with single spaces, as the Python join does. -/
def joinSpace : List (List Char) → List Char
  | [] => []
  | [t] => t
  | t :: ts => t ++ ' ' :: joinSpace ts

/-- Does the token contain an uppercase letter? -/
def hasUpper (t : List Char) : Bool :=
  t.any Char.isUpper

/-- Wrap a token in protection markers when it contains an uppercase
letter. -/
def wrapIf (t : List Char) : List Char :=
  if hasUpper t then lbrace :: t ++ [rbrace] else t

/-- The title/booktitle protection transform: strip pre-existing
markers, split on spaces, re-wrap each token containing an uppercase
letter, and re-join. -/
def protectTitle (l : List Char) : List Char :=
  joinSpace ((splitSpace (stripBraces l)).map wrapIf)

/-- The title/booktitle conditional of the per-field transform. -/
def titleStep (k : String) (l : List Char) : List Char :=
  if k = "title" ∨ k = "booktitle" then protectTitle l else l

/-- The pages conditional of the per-field transform. -/
def pagesStep (k : String) (l : List Char) : List Char :=
  if k = "pages" then dashToEn (collapseDash l) else l

/-- The per-field transform of the normalizer: collapse newline runs,
then protect `title`/`booktitle` values, then normalize dashes in
`pages` values, in the order the source applies them. -/
def normField (k : String) (v : String) : String :=
  String.mk (pagesStep k (titleStep k (collapseNL v.data)))

/-- The record normalizer of the source: every field value is
rewritten in place by the per-field transform. -/
def formatter (e : Entry) : Entry :=
  e.map (fun kv => (kv.1, normField kv.1 kv.2))

/-! ## String replacement (the Python replace method) -/

/-- Boolean prefix test on character lists. -/
def isPfx : List Char → List Char → Bool
  | [], _ => true
  | _ :: _, [] => false
  | a :: as, b :: bs => a = b && isPfx as bs

/-- Substring test, scanning every suffix. -/
def containsSub (pat : List Char) : List Char → Bool
  | [] => pat.isEmpty
  | c :: rest => isPfx pat (c :: rest) || containsSub pat rest

/-- Fuel-driven scanner for leftmost non-overlapping replacement of a
non-empty pattern; the fuel is the length of the scanned list, and
each step consumes at least one character, so the fuel never runs out
on the lists the wrapper passes in. -/
def replaceAux (pat rep : List Char) : Nat → List Char → List Char
  | _, [] => []
  | 0, l => l
  | Nat.succ fuel, c :: rest =>
    if isPfx pat (c :: rest) then
      rep ++ replaceAux pat rep fuel (List.drop (pat.length - 1) rest)
    else c :: replaceAux pat rep fuel rest

/-- Replacement of every leftmost non-overlapping occurrence of `pat`
by `rep`; on the empty pattern it returns the input unchanged (the
source never replaces an empty pattern). -/
def replaceL (pat rep l : List Char) : List Char :=
  if pat = [] then l else replaceAux pat rep l.length l

/-- The Python string replace, on `String`. -/
def replStr (pat rep s : String) : String :=
  String.mk (replaceL pat.data rep.data s.data)

/-! ## Citation renderer -/

/-- Default set of special author names that get underlined. -/
def defaultSpecial : List String :=
  ["Heinrich, Philipp", "Heinrich, P."]

/-- Author formatting: the conjunction is replaced by a semicolon, and
every occurrence of a special name is wrapped in underline tags, in
the order the special names are listed. -/
def author2html (author : String) (special : List String) : String :=
  special.foldl (fun acc s => replStr s ("<u>" ++ s ++ "</u>") acc)
    (replStr " and " "; " author)

/-- HTML formatter for article records; fields are accessed in the
order the source evaluates them (volume first for the volume/number
segment, then the join list left to right). -/
def article2html (e : Entry) : Except PyErr String :=
  match eGet e "volume", eGet e "author", eGet e "year", eGet e "title",
      eGet e "journal", eGet e "pages" with
  | Except.error err, _, _, _, _, _ => Except.error err
  | _, Except.error err, _, _, _, _ => Except.error err
  | _, _, Except.error err, _, _, _ => Except.error err
  | _, _, _, Except.error err, _, _ => Except.error err
  | _, _, _, _, Except.error err, _ => Except.error err
  | _, _, _, _, _, Except.error err => Except.error err
  | Except.ok volume, Except.ok author, Except.ok year, Except.ok title,
      Except.ok journal, Except.ok pages =>
    let volume_number := "<b>" ++ volume ++ "</b>" ++
      (match getField e "number" with
       | some n => "(" ++ n ++ ")"
       | none => "")
    Except.ok (String.intercalate " " [
      author2html author defaultSpecial,
      "(" ++ year ++ ").",
      "<b>" ++ title ++ "</b>.",
      "<i>" ++ journal ++ "</i>",
      volume_number ++ ":",
      pages ++ "."])

/-- HTML formatter for book and proceedings records; when neither an
author nor an editor is present, referencing the never-assigned local
variable raises an unbound-local error. -/
def book2html (e : Entry) : Except PyErr String :=
  let authorE : Except PyErr String :=
    match getField e "author" with
    | some a => Except.ok (author2html a defaultSpecial)
    | none =>
      match getField e "editor" with
      | some ed => Except.ok (author2html ed defaultSpecial)
      | none => Except.error (PyErr.unboundLocal "author")
  match authorE, eGet e "year", eGet e "title", eGet e "address",
      eGet e "publisher" with
  | Except.error err, _, _, _, _ => Except.error err
  | _, Except.error err, _, _, _ => Except.error err
  | _, _, Except.error err, _, _ => Except.error err
  | _, _, _, Except.error err, _ => Except.error err
  | _, _, _, _, Except.error err => Except.error err
  | Except.ok author, Except.ok year, Except.ok title, Except.ok address,
      Except.ok publisher =>
    Except.ok (String.intercalate " " [
      author,
      "(" ++ year ++ ").",
      "<b>" ++ title ++ "</b>.",
      address ++ ":",
      publisher ++ "."])

/-- HTML formatter for inproceedings records. -/
def inproceedings2html (e : Entry) : Except PyErr String :=
  match eGet e "author", eGet e "year", eGet e "title", eGet e "booktitle",
      eGet e "pages", eGet e "address" with
  | Except.error err, _, _, _, _, _ => Except.error err
  | _, Except.error err, _, _, _, _ => Except.error err
  | _, _, Except.error err, _, _, _ => Except.error err
  | _, _, _, Except.error err, _, _ => Except.error err
  | _, _, _, _, Except.error err, _ => Except.error err
  | _, _, _, _, _, Except.error err => Except.error err
  | Except.ok author, Except.ok year, Except.ok title, Except.ok booktitle,
      Except.ok pages, Except.ok address =>
    Except.ok (String.intercalate " " [
      author2html author defaultSpecial,
      "(" ++ year ++ ").",
      "<b>" ++ title ++ "</b>.",
      "In <i>" ++ booktitle ++ "</i>,",
      "pages " ++ pages ++ ",",
      address ++ "."])

/-- HTML formatter for incollection records. -/
def incollection2html (e : Entry) : Except PyErr String :=
  match eGet e "author", eGet e "year", eGet e "title", eGet e "booktitle",
      eGet e "editor", eGet e "pages", eGet e "address", eGet e "publisher" with
  | Except.error err, _, _, _, _, _, _, _ => Except.error err
  | _, Except.error err, _, _, _, _, _, _ => Except.error err
  | _, _, Except.error err, _, _, _, _, _ => Except.error err
  | _, _, _, Except.error err, _, _, _, _ => Except.error err
  | _, _, _, _, Except.error err, _, _, _ => Except.error err
  | _, _, _, _, _, Except.error err, _, _ => Except.error err
  | _, _, _, _, _, _, Except.error err, _ => Except.error err
  | _, _, _, _, _, _, _, Except.error err => Except.error err
  | Except.ok author, Except.ok year, Except.ok title, Except.ok booktitle,
      Except.ok editor, Except.ok pages, Except.ok address, Except.ok publisher =>
    Except.ok (String.intercalate " " [
      author2html author defaultSpecial,
      "(" ++ year ++ ").",
      "<b>" ++ title ++ "</b>.",
      "In <i>" ++ booktitle ++ "</i>,",
      "edited by " ++ author2html editor defaultSpecial ++ ",",
      "pages " ++ pages ++ ",",
      address ++ ":",
      publisher ++ "."])

/-- HTML formatter for misc records. -/
def misc2html (e : Entry) : Except PyErr String :=
  match eGet e "author", eGet e "year", eGet e "title", eGet e "howpublished" with
  | Except.error err, _, _, _ => Except.error err
  | _, Except.error err, _, _ => Except.error err
  | _, _, Except.error err, _ => Except.error err
  | _, _, _, Except.error err => Except.error err
  | Except.ok author, Except.ok year, Except.ok title, Except.ok howpublished =>
    Except.ok (String.intercalate " " [
      author2html author defaultSpecial,
      "(" ++ year ++ ").",
      "<b>" ++ title ++ "</b>.",
      "<i>" ++ howpublished ++ "</i>."])

/-- Dispatch on the entry type, inside the try block of the source. -/
def dispatchRender (e : Entry) : Except PyErr String :=
  match eGet e "ENTRYTYPE" with
  | Except.error err => Except.error err
  | Except.ok t =>
    if t = "article" then article2html e
    else if t = "book" ∨ t = "proceedings" then book2html e
    else if t = "inproceedings" then inproceedings2html e
    else if t = "incollection" then incollection2html e
    else if t = "misc" then misc2html e
    else Except.error (PyErr.notImplemented ("ENTRYTYPE " ++ t ++ " not supported"))

/-- Message of the error the source raises when a key lookup fails
inside the renderer try block. -/
def cantDealMsg : String :=
  "can" ++ String.mk [squote] ++ "t deal with this"

/-- The except clause of the source: a key error becomes the generic
not-implemented error; every other outcome passes through. -/
def catchKeyError (r : Except PyErr String) : Except PyErr String :=
  match r with
  | Except.error (PyErr.keyError _) =>
    Except.error (PyErr.notImplemented cantDealMsg)
  | r => r

/-- The four auxiliary-asset kinds, in the order the source checks
them. -/
def pdfKinds : List String := ["abstract", "pdf", "slides", "poster"]

/-- On-disk path of an auxiliary asset of a given kind. -/
def pdfPath (pdf_dir id kind : String) : String :=
  if kind = "pdf" then pdf_dir ++ id ++ ".pdf"
  else pdf_dir ++ id ++ "_" ++ kind ++ ".pdf"

/-- The full citation renderer: dispatch (with the key-error catch),
marker stripping, link-list augmentation driven by the filesystem
oracle, and the final unescape substitutions. -/
def bibtex2html (e : Entry) (pdf_dir : String) (isfile : String → Bool) :
    Except PyErr String :=
  match catchKeyError (dispatchRender e) with
  | Except.error err => Except.error err
  | Except.ok out0 =>
    let out1 := String.mk (stripBraces out0.data)
    let out2 := out1 ++ " ["
    match eGet e "ID" with
    | Except.error err => Except.error err
    | Except.ok id =>
      let out3 := out2 ++ "<a href=\"bib/" ++ id ++ ".bib\">bib</a>"
      let out4 := out3 ++ (match getField e "url" with
        | some u => ", <a href=\"" ++ u ++ "\">web</a>"
        | none => "")
      let out5 := pdfKinds.foldl (fun acc kind =>
        if isfile (pdfPath pdf_dir id kind) then
          acc ++ ", <a href=\"" ++ pdfPath pdf_dir id kind ++ "\">" ++ kind ++ "</a>"
        else acc) out4
      let out6 := out5 ++ "]\n"
      let out7 := replStr (String.mk [backtick, backtick]) "&ldquo;" out6
      let out8 := replStr (String.mk [squote, squote]) "&rdquo;" out7
      let out9 := replStr "\\_" "_" out8
      Except.ok (replStr "\\&" "&" out9)

/-! ## Classifier and orderer -/

/-- Does the pattern (the word shared, one optional whitespace
character, the word task) match at the start of the list? -/
def sharedAt (l : List Char) : Bool :=
  isPfx "shared".data l &&
    (isPfx "task".data (l.drop 6) ||
      (match l.drop 6 with
       | c :: r2 => isWsC c && isPfx "task".data r2
       | [] => false))

/-- The regex search: does the pattern match at any position? -/
def searchShared : List Char → Bool
  | [] => false
  | c :: rest => sharedAt (c :: rest) || searchShared rest

/-- The shared-task test of the classifier: the note is lowercased,
then searched for the pattern.  (Characters are lowercased ASCII-wise,
matching the inputs the corpus contains.) -/
def sharedTaskNote (s : String) : Bool :=
  searchShared (s.data.map Char.toLower)

/-- The grouping key used for by-category classification: the
shared-task override when a matching note is present, the entry type
otherwise. -/
def categoryKey (e : Entry) : Except PyErr String :=
  match getField e "note" with
  | some note =>
    if sharedTaskNote note then Except.ok "sharedtask" else eGet e "ENTRYTYPE"
  | none => eGet e "ENTRYTYPE"

/-- The grouping key used for by-date classification: the date field
when present, the year field otherwise (a key error when both are
absent). -/
def dateKey (e : Entry) : Except PyErr String :=
  match getField e "date" with
  | some d => Except.ok d
  | none => eGet e "year"

/-- Append an entry to its group, creating the group at the end when
the key is new (insertion order of a Python dictionary). -/
def addToGroup : List (String × List Entry) → String → Entry → List (String × List Entry)
  | [], k, e => [(k, [e])]
  | (k', es) :: rest, k, e =>
    if k' = k then (k', es ++ [e]) :: rest
    else (k', es) :: addToGroup rest k e

/-- The grouping loop of the source: by category when the mode is
ENTRYTYPE, by date when the mode is date, and a no-op otherwise (an
unknown mode silently drops every record). -/
def order_dbAux (order : String) :
    List (String × List Entry) → List Entry → Except PyErr (List (String × List Entry))
  | groups, [] => Except.ok groups
  | groups, e :: rest =>
    if order = "ENTRYTYPE" then
      match categoryKey e with
      | Except.error err => Except.error err
      | Except.ok k => order_dbAux order (addToGroup groups k e) rest
    else if order = "date" then
      match dateKey e with
      | Except.error err => Except.error err
      | Except.ok k => order_dbAux order (addToGroup groups k e) rest
    else order_dbAux order groups rest

/-- The classifier: a mapping from key to the stable list of records
sharing that key, in first-seen key order. -/
def order_db (db : List Entry) (order : String) :
    Except PyErr (List (String × List Entry)) :=
  order_dbAux order [] db

/-! ## Key sorting (Python sorted on strings) -/

/-- Lexicographic comparison of character lists by code point. -/
def charsLt : List Char → List Char → Bool
  | [], [] => false
  | [], _ :: _ => true
  | _ :: _, [] => false
  | a :: as, b :: bs => a < b || (a = b && charsLt as bs)

/-- The Python string less-than. -/
def strLtB (a b : String) : Bool := charsLt a.data b.data

/-- The corresponding less-or-equal. -/
def strLeB (a b : String) : Bool := ! strLtB b a

/-- Insertion into an ascending list. -/
def insertAsc (x : String) : List String → List String
  | [] => [x]
  | y :: ys => if strLeB x y then x :: y :: ys else y :: insertAsc x ys

/-- Ascending sort of key lists (the keys sorted are distinct
dictionary keys, so stability is immaterial). -/
def sortAsc : List String → List String
  | [] => []
  | x :: xs => insertAsc x (sortAsc xs)

/-- Descending sort, as Python sorted with reverse set. -/
def sortDesc (l : List String) : List String := (sortAsc l).reverse

/-- Group lookup with the empty default of a defaultdict. -/
def lookupGroup (groups : List (String × List Entry)) (k : String) : List Entry :=
  match groups.find? (fun g => g.1 == k) with
  | some g => g.2
  | none => []

/-- The date-descending emission order used inside one category block:
group by date key, then concatenate the groups in descending key
order. -/
def dateOrdered (es : List Entry) : Except PyErr (List Entry) :=
  match order_db es "date" with
  | Except.error err => Except.error err
  | Except.ok gs =>
    Except.ok (List.flatten ((sortDesc (gs.map Prod.fst)).map (lookupGroup gs)))

/-! ## Loading and the driver -/

/-- The transform loop of the loading step: comments are dropped, the
normalizer is applied to every other record; a record without an
entry type raises a key error. -/
def filterFormat : List Entry → Except PyErr (List Entry)
  | [] => Except.ok []
  | e :: rest =>
    match eGet e "ENTRYTYPE" with
    | Except.error err => Except.error err
    | Except.ok t =>
      match filterFormat rest with
      | Except.error err => Except.error err
      | Except.ok es =>
        Except.ok (if t = "comment" then es else formatter e :: es)

/-- The loading step: the parsed records (parsing itself is the
external library) are admitted only when their count equals the count
of input paths (the assert of the source), then filtered and
normalized. -/
def read_many_bibs (paths : List String) (parsed : List Entry) :
    Except PyErr (List Entry) :=
  if parsed.length = paths.length then filterFormat parsed
  else Except.error PyErr.assertionError

/-- The seven presentation categories of the label table in the
driver, in its fixed order. -/
def knownTypes : List String :=
  ["article", "book", "proceedings", "inproceedings", "incollection",
   "sharedtask", "misc"]

/-- The category check of the driver: the union of the grouping keys with
the label-table keys is larger than the label table exactly when some
grouping key is unknown. -/
def unknownCategory (groups : List (String × List Entry)) : Bool :=
  ((groups.map Prod.fst).union knownTypes).length != knownTypes.length

/-- The bib-output loop: per category block (ascending key order), the
records are regrouped by date; only the date regrouping can fail. -/
def bibLoopAux (groups : List (String × List Entry)) : List String → Except PyErr Unit
  | [] => Except.ok ()
  | k :: rest =>
    match order_db (lookupGroup groups k) "date" with
    | Except.error err => Except.error err
    | Except.ok _ => bibLoopAux groups rest

/-- The bib-output loop over all category blocks. -/
def bibLoop (groups : List (String × List Entry)) : Except PyErr Unit :=
  bibLoopAux groups (sortAsc (groups.map Prod.fst))

/-- Render every record of a list, stopping at the first failure. -/
def renderList (pdf_dir : String) (isfile : String → Bool) :
    List Entry → Except PyErr Unit
  | [] => Except.ok ()
  | e :: rest =>
    match bibtex2html e pdf_dir isfile with
    | Except.error err => Except.error err
    | Except.ok _ => renderList pdf_dir isfile rest

/-- The html-output loop: per presentation category (fixed order), the
records are regrouped by date, emitted date-descending, and rendered. -/
def htmlLoopAux (groups : List (String × List Entry)) (pdf_dir : String)
    (isfile : String → Bool) : List String → Except PyErr Unit
  | [] => Except.ok ()
  | k :: rest =>
    match dateOrdered (lookupGroup groups k) with
    | Except.error err => Except.error err
    | Except.ok es =>
      match renderList pdf_dir isfile es with
      | Except.error err => Except.error err
      | Except.ok _ => htmlLoopAux groups pdf_dir isfile rest

/-- The html-output loop over the fixed category order. -/
def htmlLoop (groups : List (String × List Entry)) (pdf_dir : String)
    (isfile : String → Bool) : Except PyErr Unit :=
  htmlLoopAux groups pdf_dir isfile knownTypes

/-- Which output files exist (possibly partially written) after a run,
and the error, if any, that aborted it.  A file counts as written once
the source has opened it for writing. -/
structure MainResult where
  tsvWritten : Bool
  bibWritten : Bool
  htmlWritten : Bool
  error : Option PyErr
  deriving DecidableEq, Repr

/-- The pipeline driver: load, write the tabular export, group by
category, write the bib export block by block, check the category
table, then write the hypertext output. -/
def mainRun (paths : List String) (parsed : List Entry) (pdf_dir : String)
    (isfile : String → Bool) : MainResult :=
  match read_many_bibs paths parsed with
  | Except.error err => ⟨false, false, false, some err⟩
  | Except.ok db =>
    match order_db db "ENTRYTYPE" with
    | Except.error err => ⟨true, false, false, some err⟩
    | Except.ok groups =>
      match bibLoop groups with
      | Except.error err => ⟨true, true, false, some err⟩
      | Except.ok _ =>
        if unknownCategory groups then ⟨true, true, false, some PyErr.valueError⟩
        else
          match htmlLoop groups pdf_dir isfile with
          | Except.error err => ⟨true, true, true, some err⟩
          | Except.ok _ => ⟨true, true, true, none⟩

/-! ## Claim-side reference definitions

These two definitions follow the words of claims under examination,
not the source; they exist only to compare the claimed behaviour with
the embedded one. -/

/-- Modelled from the claim: the note pattern as claim C3 words it —
the words shared and task, case-insensitively, with an optional space
or hyphen between them. -/
def specSharedTaskPattern (s : String) : Bool :=
  let l := s.data.map Char.toLower
  containsSub "sharedtask".data l || containsSub "shared task".data l ||
    containsSub "shared-task".data l

/-- Fuel-driven split on a non-empty separator, keeping empty pieces,
as the Python split method does. -/
def splitSepAux (sep : List Char) : Nat → List Char → List (List Char)
  | _, [] => [[]]
  | 0, l => [l]
  | Nat.succ fuel, c :: rest =>
    if isPfx sep (c :: rest) then
      [] :: splitSepAux sep fuel (List.drop (sep.length - 1) rest)
    else
      match splitSepAux sep fuel rest with
      | t :: ts => (c :: t) :: ts
      | [] => [[c]]

/-- Joining with a separator, as the Python join method does. -/
def joinWith (sep : List Char) : List (List Char) → List Char
  | [] => []
  | [t] => t
  | t :: ts => t ++ sep ++ joinWith sep ts

/-- Modelled from the claim: author formatting as claim C8 words it —
after joining with semicolons, exactly those author names that exactly
match a special name are underlined. -/
def author2htmlSpec (author : String) (special : List String) : String :=
  let joined := replStr " and " "; " author
  let names := (splitSepAux "; ".data joined.data.length joined.data).map
    (fun n => if String.mk n ∈ special then "<u>".data ++ n ++ "</u>".data else n)
  String.mk (joinWith "; ".data names)

/-! ## Predicates used by the statements and proofs -/

/-- A character list without protection markers. -/
abbrev BraceFree (l : List Char) : Prop :=
  lbrace ∉ l ∧ rbrace ∉ l

/-- Marker freedom of an optional field value. -/
def optBraceFree : Option String → Prop
  | some s => BraceFree s.data
  | none => True

instance (o : Option String) : Decidable (optBraceFree o) :=
  match o with
  | some _ => inferInstanceAs (Decidable (BraceFree _))
  | none => inferInstanceAs (Decidable True)

/-- Marker freedom of a successful render result (failures are not
constrained). -/
def okBraceFree : Except PyErr String → Prop
  | Except.ok s => BraceFree s.data
  | Except.error _ => True

/-- Does a successful render result contain a left marker? -/
def okHasBrace : Except PyErr String → Bool
  | Except.ok s => s.data.contains lbrace
  | Except.error _ => false

/-- Does the list start with zero or more whitespace characters
followed by a dash? -/
def startsWsStarDash (l : List Char) : Bool :=
  match l.dropWhile isWsC with
  | d :: _ => isDashC d
  | [] => false

/-- Does the list start with one or more whitespace characters
followed by a dash? -/
def startsWsPlusDash (l : List Char) : Bool :=
  match l with
  | c :: _ => isWsC c && startsWsStarDash l
  | [] => false

/-- Does the list contain two dash characters separated only by
whitespace?  Exactly on such inputs the dash substitution produces
adjacent replacement hyphens. -/
def hasDashWsDash : List Char → Bool
  | [] => false
  | c :: rest => (isDashC c && startsWsPlusDash rest) || hasDashWsDash rest

/-- States of the direct scanner for the dash-whitespace-dash
pattern: nothing pending, a dash just seen, or a dash followed by
whitespace seen. -/
inductive WState where
  | no
  | dash
  | dashWs
  deriving DecidableEq

/-- Direct scanner for the dash-whitespace-dash pattern; it is
equivalent to the lookahead test and easier to relate to the other
scanners character by character. -/
def hasDWDAux : WState → List Char → Bool
  | _, [] => false
  | WState.no, c :: r =>
    if isDashC c then hasDWDAux WState.dash r else hasDWDAux WState.no r
  | WState.dash, c :: r =>
    if isDashC c then hasDWDAux WState.dash r
    else if isWsC c then hasDWDAux WState.dashWs r
    else hasDWDAux WState.no r
  | WState.dashWs, c :: r =>
    if isDashC c then true
    else if isWsC c then hasDWDAux WState.dashWs r
    else hasDWDAux WState.no r

/-- Adjacent characters never put whitespace or a second dash next to
a dash. -/
def okPair (a b : Char) : Bool :=
  !(isDashC a && (isDashC b || isWsC b)) && !(isWsC a && isDashC b)

/-- Every dash is isolated: not next to another dash and not next to
whitespace. -/
def isolatedDashes : List Char → Bool
  | [] => true
  | [_] => true
  | a :: b :: rest => okPair a b && isolatedDashes (b :: rest)

/-- The head, when present, is neither a dash nor whitespace. -/
def headNeutral : List Char → Prop
  | [] => True
  | c :: _ => isDashC c = false ∧ isWsC c = false

/-- The head, when present, is not a dash. -/
def headNotDash : List Char → Prop
  | [] => True
  | c :: _ => isDashC c = false

/-- Per-state precondition of the dash scanner under which its output
has only isolated dashes. -/
def dPre : DState → List Char → Prop
  | DState.norm, l => hasDashWsDash l = false
  | DState.inDash, l => hasDashWsDash l = false ∧ startsWsPlusDash l = false
  | DState.trailWs, l => hasDashWsDash l = false ∧ startsWsStarDash l = false

/-- Replace every dash character by a hyphen (the pointwise effect of
the dash scanner on strings whose dashes are isolated). -/
def mapDashHyphen (l : List Char) : List Char :=
  l.map (fun c => if isDashC c then '-' else c)

/-! ## Concrete records used by the individual claims -/

/-- A record of an entry type outside the presentation table. -/
def c1entry : Entry :=
  [("ENTRYTYPE", "phdthesis"), ("ID", "a"), ("year", "2020")]

/-- An article record whose only missing required field is pages. -/
def c2entry : Entry :=
  [("ENTRYTYPE", "article"), ("ID", "foo2020"), ("author", "Smith, J."),
   ("year", "2020"), ("title", "T"), ("journal", "J"), ("volume", "7")]

/-- An inproceedings record whose note writes shared task with a
hyphen. -/
def c3entry : Entry :=
  [("ENTRYTYPE", "inproceedings"), ("ID", "x"), ("note", "shared-task results")]

/-- An inproceedings record whose note writes SharedTask in camel
case. -/
def c3entryCamel : Entry :=
  [("ENTRYTYPE", "inproceedings"), ("ID", "x"), ("note", "SharedTask results")]

/-- A comment record, as the parser emits for a comment block. -/
def c4comment : Entry :=
  [("ENTRYTYPE", "comment")]

/-- A citable record read alongside the comment. -/
def c4article : Entry :=
  [("ENTRYTYPE", "article"), ("ID", "x"), ("year", "2020")]

/-- A record whose pages value holds two dashes separated by a space. -/
def c5entry : Entry :=
  [("ENTRYTYPE", "article"), ("pages", "– –")]

/-- An already-consistent record with a pages range and a title. -/
def c5entryGood : Entry :=
  [("ENTRYTYPE", "article"), ("pages", "12–34"), ("title", "The Answer")]

/-- A record whose pages and title values contain newlines but whose
pages value has no whitespace-separated dashes. -/
def c5entryNl : Entry :=
  [("ENTRYTYPE", "article"), ("pages", "1-\n2"), ("title", "A\nB")]

/-- A complete article record whose url field contains protection
markers. -/
def c7entry : Entry :=
  [("ENTRYTYPE", "article"), ("ID", "foo123"), ("author", "A"),
   ("year", "2020"), ("title", "T"), ("journal", "J"), ("volume", "7"),
   ("pages", "1–2"), ("url", "http://x/\x7by\x7d")]

/-- A complete article record with marker-free id and url. -/
def c7entryGood : Entry :=
  [("ENTRYTYPE", "article"), ("ID", "foo123"), ("author", "A \x7bB\x7d"),
   ("year", "2020"), ("title", "\x7bThe\x7d \x7bAnswer\x7d"), ("journal", "J"),
   ("volume", "7"), ("pages", "1–2"), ("url", "http://x.org/a")]

/-- An article record carrying a date field finer than its year. -/
def c9entryNew : Entry :=
  [("ENTRYTYPE", "article"), ("ID", "a"), ("year", "2020"), ("date", "2021-03")]

/-- An article record carrying only a year. -/
def c9entryOld : Entry :=
  [("ENTRYTYPE", "article"), ("ID", "b"), ("year", "2020")]

/-- A record carrying neither a date nor a year. -/
def c9entryNone : Entry :=
  [("ENTRYTYPE", "article"), ("ID", "q")]

/-!
# Theorems

One theorem per claim, with helper lemmas shared across claims; each
theorem with a propositional hypothesis is followed by a witness
instantiating it on a concrete record.
-/

/-- Grouping with an unrecognized mode leaves the accumulated groups
untouched. -/
theorem order_dbAux_other {order : String} (h1 : order ≠ "ENTRYTYPE")
    (h2 : order ≠ "date") :
    ∀ (l : List Entry) (groups : List (String × List Entry)),
    order_dbAux order groups l = Except.ok groups := by
  intro l
  induction l with
  | nil => intro groups; rfl
  | cons e rest ih =>
    intro groups
    simp only [order_dbAux, if_neg h1, if_neg h2]
    exact ih _

/-- C10: for every record database and every ordering-mode string
other than ENTRYTYPE and date, the classifier returns an empty
grouping — every record is silently dropped and no error is raised. -/
theorem c10_unknown_order_empty :
    ∀ (db : List Entry) (order : String), order ≠ "ENTRYTYPE" → order ≠ "date" →
    order_db db order = Except.ok [] := by
  intro db order h1 h2
  exact order_dbAux_other h1 h2 db []

/-- Witness for C10 at a concrete database and mode. -/
theorem c10_witness :
    order_db [[("ENTRYTYPE", "article"), ("ID", "b")]] "foo" = Except.ok [] :=
  c10_unknown_order_empty [[("ENTRYTYPE", "article"), ("ID", "b")]] "foo"
    (by decide) (by decide)

/-- C9: by-date classification keys a record by its date field when
present and by its year field otherwise, raises a key error when both
are absent, and the date-descending emission order puts the record
keyed 2021-03 before the record keyed 2020 regardless of input
order. -/
theorem c9_date_ordering :
    (∀ (e : Entry) (d : String), getField e "date" = some d →
      dateKey e = Except.ok d) ∧
    (∀ (e : Entry) (y : String), getField e "date" = none →
      getField e "year" = some y → dateKey e = Except.ok y) ∧
    (∀ e : Entry, getField e "date" = none → getField e "year" = none →
      order_db [e] "date" = Except.error (PyErr.keyError "year")) ∧
    dateOrdered [c9entryOld, c9entryNew] = Except.ok [c9entryNew, c9entryOld] ∧
    dateOrdered [c9entryNew, c9entryOld] = Except.ok [c9entryNew, c9entryOld] := by
  refine ⟨?_, ?_, ?_, by decide, by decide⟩
  · intro e d h
    simp [dateKey, h]
  · intro e y h1 h2
    simp [dateKey, eGet, h1, h2]
  · intro e h1 h2
    simp [order_db, order_dbAux, dateKey, eGet, h1, h2]

/-- Witness for C9 at concrete records. -/
theorem c9_witness :
    dateKey c9entryNew = Except.ok "2021-03" ∧
    dateKey c9entryOld = Except.ok "2020" ∧
    order_db [c9entryNone] "date" = Except.error (PyErr.keyError "year") :=
  ⟨c9_date_ordering.1 c9entryNew "2021-03" (by decide),
   c9_date_ordering.2.1 c9entryOld "2020" (by decide) (by decide),
   c9_date_ordering.2.2.1 c9entryNone (by decide) (by decide)⟩

/-- C6: pages normalization is the dash-run collapse followed by the
hyphen-to-en-dash replacement (after the newline collapse applied to
every field), and each of the three claimed inputs normalizes to the
en-dashed range. -/
theorem c6_pages_normalization :
    (∀ v : String, normField "pages" v =
      String.mk (dashToEn (collapseDash (collapseNL v.data)))) ∧
    normField "pages" "12-34" = "12–34" ∧
    normField "pages" "12 - 34" = "12–34" ∧
    normField "pages" "12–34" = "12–34" :=
  ⟨fun _ => rfl, by decide, by decide, by decide⟩

/-- C3 counterexample: a note writing shared-task with a hyphen
matches the pattern the claim describes, yet the classifier does not
assign the sharedtask category to the record carrying it. -/
theorem c3_counterexample :
    specSharedTaskPattern "shared-task results" = true ∧
    categoryKey c3entry ≠ Except.ok "sharedtask" ∧
    categoryKey c3entry = Except.ok "inproceedings" := by
  refine ⟨by decide, by decide, by decide⟩

/-- C3 amended: the override pattern is the word shared, at most one
whitespace character, and the word task, case-insensitively — a
hyphen between the words does not trigger it; with a matching note
the category is sharedtask, otherwise it is the entry type. -/
theorem c3_sharedtask_classification :
    (∀ (e : Entry) (note : String), getField e "note" = some note →
      (sharedTaskNote note = true → categoryKey e = Except.ok "sharedtask") ∧
      (sharedTaskNote note = false → categoryKey e = eGet e "ENTRYTYPE")) ∧
    (∀ e : Entry, getField e "note" = none →
      categoryKey e = eGet e "ENTRYTYPE") ∧
    sharedTaskNote "SharedTask results" = true ∧
    sharedTaskNote "shared task" = true ∧
    sharedTaskNote "shared-task" = false := by
  refine ⟨?_, ?_, by decide, by decide, by decide⟩
  · intro e note h
    refine ⟨fun hs => ?_, fun hs => ?_⟩
    · simp [categoryKey, h, hs]
    · simp [categoryKey, h, hs]
  · intro e h
    simp [categoryKey, h]

/-- Witness for C3 at a concrete record with a camel-case note. -/
theorem c3_witness :
    categoryKey c3entryCamel = Except.ok "sharedtask" :=
  (c3_sharedtask_classification.1 c3entryCamel "SharedTask results"
    (by decide)).1 (by decide)

/-- C8 counterexample: an author name that does not exactly match any
special name still gets an underline inserted around a matching
substring, diverging from the exact-name underlining the claim
describes (which would leave the name unchanged). -/
theorem c8_counterexample :
    author2html "Heinrich, Philippa" defaultSpecial ≠
      author2htmlSpec "Heinrich, Philippa" defaultSpecial ∧
    author2htmlSpec "Heinrich, Philippa" defaultSpecial = "Heinrich, Philippa" ∧
    author2html "Heinrich, Philippa" defaultSpecial =
      "<u>Heinrich, Philipp</u>a" := by
  refine ⟨by decide, by decide, by decide⟩

/-- C8 amended: author rendering replaces the conjunction by a
semicolon and underlines every substring occurrence of a special
name (not only exactly matching author names); the claimed concrete
example renders as stated. -/
theorem c8_author_formatting :
    author2html "Smith, J. and Heinrich, Philipp" defaultSpecial =
      "Smith, J.; <u>Heinrich, Philipp</u>" ∧
    containsSub "<u>Heinrich, Philipp</u>".data
      (author2html "Heinrich, Philippa" defaultSpecial).data = true ∧
    (∀ (a : String) (sp : List String),
      author2html a sp = sp.foldl
        (fun acc s => replStr s ("<u>" ++ s ++ "</u>") acc)
        (replStr " and " "; " a)) :=
  ⟨by decide, by decide, fun _ _ => rfl⟩

/-- An article record without a pages field makes the article
formatter fail with a key error (on pages itself, or on an earlier
required field that is also absent). -/
theorem article2html_missing_pages {e : Entry} (hp : getField e "pages" = none) :
    ∃ k, article2html e = Except.error (PyErr.keyError k) := by
  rcases hv : getField e "volume" with _ | v
  · exact ⟨"volume", by simp [article2html, eGet, hv]⟩
  rcases ha : getField e "author" with _ | a
  · exact ⟨"author", by simp [article2html, eGet, hv, ha]⟩
  rcases hy : getField e "year" with _ | y
  · exact ⟨"year", by simp [article2html, eGet, hv, ha, hy]⟩
  rcases ht : getField e "title" with _ | t
  · exact ⟨"title", by simp [article2html, eGet, hv, ha, hy, ht]⟩
  rcases hj : getField e "journal" with _ | j
  · exact ⟨"journal", by simp [article2html, eGet, hv, ha, hy, ht, hj]⟩
  exact ⟨"pages", by simp [article2html, eGet, hv, ha, hy, ht, hj, hp]⟩

/-- C2 counterexample: rendering a concrete article record without a
pages field fails with the fixed generic message, which contains
neither the record id foo2020 nor the field name pages. -/
theorem c2_counterexample :
    bibtex2html c2entry "pdf/" (fun _ => false) =
      Except.error (PyErr.notImplemented cantDealMsg) ∧
    containsSub "foo2020".data cantDealMsg.data = false ∧
    containsSub "pages".data cantDealMsg.data = false := by
  refine ⟨by decide, by decide, by decide⟩

/-- C2 amended: for every article record lacking pages, rendering
fails — but with the fixed generic not-implemented message, which
does not name the missing field (nor, being constant, any record
id). -/
theorem c2_missing_pages_generic_error :
    ∀ (e : Entry) (pdf : String) (isf : String → Bool),
    getField e "ENTRYTYPE" = some "article" → getField e "pages" = none →
    bibtex2html e pdf isf = Except.error (PyErr.notImplemented cantDealMsg) ∧
    containsSub "pages".data cantDealMsg.data = false := by
  intro e pdf isf hT hp
  obtain ⟨k, hk⟩ := article2html_missing_pages hp
  have hdisp : dispatchRender e = Except.error (PyErr.keyError k) := by
    simp [dispatchRender, eGet, hT, hk]
  refine ⟨?_, by decide⟩
  simp [bibtex2html, hdisp, catchKeyError]

/-- Witness for C2 at the concrete record. -/
theorem c2_witness :
    bibtex2html c2entry "pdf/" (fun _ => false) =
      Except.error (PyErr.notImplemented cantDealMsg) ∧
    containsSub "pages".data cantDealMsg.data = false :=
  c2_missing_pages_generic_error c2entry "pdf/" (fun _ => false)
    (by decide) (by decide)

/-- The transform loop keeps exactly the non-comment records: its
output length plus the number of comment records is the input
length. -/
theorem filterFormat_length :
    ∀ (l res : List Entry), filterFormat l = Except.ok res →
    res.length + l.countP (fun e => getField e "ENTRYTYPE" == some "comment")
      = l.length := by
  intro l
  induction l with
  | nil =>
    intro res h
    simp [filterFormat] at h
    subst h
    simp
  | cons e rest ih =>
    intro res h
    rcases hT : getField e "ENTRYTYPE" with _ | t
    · simp [filterFormat, eGet, hT] at h
    rcases hf : filterFormat rest with err | es
    · simp [filterFormat, eGet, hT, hf] at h
    have hrec := ih es hf
    simp [filterFormat, eGet, hT, hf] at h
    by_cases hc : t = "comment"
    · subst hc
      simp only [if_pos rfl] at h
      subst h
      simp [List.countP_cons, hT]
      omega
    · rw [if_neg hc] at h
      subst h
      simp [List.countP_cons, hT, hc]
      omega

/-- C4 counterexample: two input files whose parsed records are one
comment and one article pass the loading assert, yet only one record
remains after the normalizer — fewer than the two distinct input
files. -/
theorem c4_counterexample :
    read_many_bibs ["a", "b"] [c4comment, c4article] = Except.ok [c4article] ∧
    ([c4article] : List Entry).length ≠ (["a", "b"] : List String).length := by
  refine ⟨by decide, by decide⟩

/-- C4 amended: when loading succeeds, the number of records after
the normalizer equals the number of input files minus the number of
comment records among the parsed records (so equality with the file
count holds exactly when no comments were read). -/
theorem c4_count_minus_comments :
    ∀ (paths : List String) (parsed db : List Entry),
    read_many_bibs paths parsed = Except.ok db →
    db.length + parsed.countP (fun e => getField e "ENTRYTYPE" == some "comment")
      = paths.length := by
  intro paths parsed db h
  unfold read_many_bibs at h
  split at h
  case isTrue hlen =>
    have := filterFormat_length parsed db h
    omega
  case isFalse => exact absurd h (by simp)

/-- Witness for C4 at the concrete two-file corpus. -/
theorem c4_witness :
    ([c4article] : List Entry).length +
      [c4comment, c4article].countP
        (fun e => getField e "ENTRYTYPE" == some "comment")
      = (["a", "b"] : List String).length :=
  c4_count_minus_comments ["a", "b"] [c4comment, c4article] [c4article]
    (by decide)

/-- Union with a list never shrinks it. -/
theorem length_le_length_union :
    ∀ (l1 l2 : List String), l2.length ≤ (l1 ∪ l2).length := by
  intro l1 l2
  induction l1 with
  | nil => simp
  | cons a l1 ih =>
    rw [List.cons_union]
    by_cases h : a ∈ l1 ∪ l2
    · rw [List.insert_of_mem h]
      exact ih
    · rw [List.insert_of_not_mem h]
      simp only [List.length_cons]
      omega

/-- The union keeps the length of the right list exactly when the left
list is contained in the right one. -/
theorem union_length_eq_iff :
    ∀ (l1 l2 : List String),
    (l1 ∪ l2).length = l2.length ↔ ∀ a ∈ l1, a ∈ l2 := by
  intro l1 l2
  induction l1 with
  | nil => simp
  | cons a l1 ih =>
    rw [List.cons_union]
    by_cases h : a ∈ l1 ∪ l2
    · rw [List.insert_of_mem h]
      constructor
      · intro hl x hx
        have hsub := ih.mp hl
        rcases List.mem_cons.mp hx with rfl | hx'
        · rcases List.mem_union_iff.mp h with hx1 | hx2
          · exact hsub _ hx1
          · exact hx2
        · exact hsub _ hx'
      · intro hall
        exact ih.mpr (fun x hx => hall x (List.mem_cons_of_mem a hx))
    · rw [List.insert_of_not_mem h]
      simp only [List.length_cons]
      constructor
      · intro hl
        have := length_le_length_union l1 l2
        omega
      · intro hall
        exact absurd (List.mem_union_iff.mpr (Or.inr (hall a (List.mem_cons_self a l1))))
          h

/-- The driver category check fires exactly when some grouping key
is outside the presentation table. -/
theorem unknownCategory_iff (groups : List (String × List Entry)) :
    unknownCategory groups = true ↔ ∃ g ∈ groups, g.1 ∉ knownTypes := by
  unfold unknownCategory
  rw [bne_iff_ne]
  constructor
  · intro hne
    by_contra hno
    push_neg at hno
    apply hne
    apply (union_length_eq_iff _ _).mpr
    intro a ha
    rcases List.mem_map.mp ha with ⟨g, hg, rfl⟩
    exact hno g hg
  · rintro ⟨g, hg, hgk⟩ heq
    exact hgk ((union_length_eq_iff _ _).mp heq g.1 (List.mem_map_of_mem _ hg))

/-- C1 counterexample: with one input record of an unknown entry type,
the run aborts with the category value error — but only after the
tabular and bib outputs were already written, so output files are
produced. -/
theorem c1_counterexample :
    (mainRun ["p1"] [c1entry] "pdf/" (fun _ => false)).tsvWritten = true ∧
    (mainRun ["p1"] [c1entry] "pdf/" (fun _ => false)).bibWritten = true ∧
    (mainRun ["p1"] [c1entry] "pdf/" (fun _ => false)).htmlWritten = false ∧
    (mainRun ["p1"] [c1entry] "pdf/" (fun _ => false)).error
      = some PyErr.valueError := by
  refine ⟨by decide, by decide, by decide, by decide⟩

/-- C1 amended: when the grouping contains a key outside the seven
presentation categories (and the earlier stages succeed), the run
aborts with the value error before the hypertext output is written —
but after the tabular and bib outputs have been produced. -/
theorem c1_unknown_category_after_tsv_bib :
    (∀ (paths : List String) (parsed : List Entry) (pdf : String)
      (isf : String → Bool) (db : List Entry)
      (groups : List (String × List Entry)),
      read_many_bibs paths parsed = Except.ok db →
      order_db db "ENTRYTYPE" = Except.ok groups →
      bibLoop groups = Except.ok () →
      unknownCategory groups = true →
      mainRun paths parsed pdf isf =
        ⟨true, true, false, some PyErr.valueError⟩) ∧
    (∀ groups : List (String × List Entry),
      unknownCategory groups = true ↔ ∃ g ∈ groups, g.1 ∉ knownTypes) := by
  refine ⟨?_, unknownCategory_iff⟩
  intro paths parsed pdf isf db groups h1 h2 h3 h4
  simp [mainRun, h1, h2, h3, h4]

/-- Witness for C1 at the concrete one-record corpus. -/
theorem c1_witness :
    mainRun ["p1"] [c1entry] "pdf/" (fun _ => false) =
      ⟨true, true, false, some PyErr.valueError⟩ :=
  c1_unknown_category_after_tsv_bib.1 ["p1"] [c1entry] "pdf/" (fun _ => false)
    [c1entry] [("phdthesis", [c1entry])] (by decide) (by decide) (by decide)
    (by decide)

/-- Concatenation preserves marker freedom. -/
theorem braceFree_append {a b : List Char} (ha : BraceFree a) (hb : BraceFree b) :
    BraceFree (a ++ b) := by
  refine ⟨?_, ?_⟩ <;> rw [List.mem_append] <;> rintro (h | h)
  · exact ha.1 h
  · exact hb.1 h
  · exact ha.2 h
  · exact hb.2 h

/-- Concatenation of strings preserves marker freedom. -/
theorem sBF_append {a b : String} (ha : BraceFree a.data) (hb : BraceFree b.data) :
    BraceFree (a ++ b).data := by
  rw [String.data_append]
  exact braceFree_append ha hb

/-- The marker-stripping substitution leaves no marker behind. -/
theorem braceFree_stripBraces (l : List Char) : BraceFree (stripBraces l) := by
  refine ⟨fun h => ?_, fun h => ?_⟩ <;>
    · have := (List.mem_filter.mp h).2
      simp at this

/-- Every character of a replacement result comes from the input or
from the replacement text. -/
theorem mem_replaceAux {c : Char} {pat rep : List Char} :
    ∀ (fuel : Nat) (l : List Char), c ∈ replaceAux pat rep fuel l →
    c ∈ l ∨ c ∈ rep := by
  intro fuel
  induction fuel with
  | zero =>
    intro l h
    cases l with
    | nil => simp [replaceAux] at h
    | cons a as => exact Or.inl h
  | succ fuel ih =>
    intro l h
    cases l with
    | nil => simp [replaceAux] at h
    | cons a as =>
      rw [replaceAux] at h
      by_cases hp : isPfx pat (a :: as) = true
      · rw [if_pos hp] at h
        rcases List.mem_append.mp h with h' | h'
        · exact Or.inr h'
        · rcases ih _ h' with h'' | h''
          · exact Or.inl (List.mem_cons_of_mem a (List.mem_of_mem_drop h''))
          · exact Or.inr h''
      · rw [if_neg hp] at h
        rcases List.mem_cons.mp h with rfl | h'
        · exact Or.inl (List.mem_cons_self c as)
        · rcases ih _ h' with h'' | h''
          · exact Or.inl (List.mem_cons_of_mem a h'')
          · exact Or.inr h''

/-- Replacement with a marker-free replacement text preserves marker
freedom. -/
theorem braceFree_replStr {pat rep s : String} (hrep : BraceFree rep.data)
    (hs : BraceFree s.data) : BraceFree (replStr pat rep s).data := by
  unfold replStr replaceL
  split
  · exact hs
  · refine ⟨fun h => ?_, fun h => ?_⟩
    · rcases mem_replaceAux _ _ h with h' | h'
      · exact hs.1 h'
      · exact hrep.1 h'
    · rcases mem_replaceAux _ _ h with h' | h'
      · exact hs.2 h'
      · exact hrep.2 h'

/-- Auxiliary-asset paths built from marker-free components are
marker-free. -/
theorem braceFree_pdfPath {pdf id k : String} (hpdf : BraceFree pdf.data)
    (hid : BraceFree id.data) (hk : BraceFree k.data) :
    BraceFree (pdfPath pdf id k).data := by
  unfold pdfPath
  split
  · exact sBF_append (sBF_append hpdf hid) (by decide)
  · exact sBF_append (sBF_append (sBF_append (sBF_append hpdf hid) (by decide)) hk)
      (by decide)

/-- The asset-link fold preserves marker freedom of the accumulator
when the directory, the id and the kind names are marker-free. -/
theorem braceFree_pdfFold (pdf id : String) (isf : String → Bool)
    (hpdf : BraceFree pdf.data) (hid : BraceFree id.data) :
    ∀ ks : List String, (∀ k ∈ ks, BraceFree k.data) →
    ∀ acc : String, BraceFree acc.data →
    BraceFree (List.foldl (fun acc kind =>
      if isf (pdfPath pdf id kind) then
        acc ++ ", <a href=\"" ++ pdfPath pdf id kind ++ "\">" ++ kind ++ "</a>"
      else acc) acc ks).data := by
  intro ks
  induction ks with
  | nil => intro _ acc hacc; exact hacc
  | cons k ks ih =>
    intro hks acc hacc
    rw [List.foldl_cons]
    refine ih (fun x hx => hks x (List.mem_cons_of_mem k hx)) _ ?_
    split
    · have hk := hks k (List.mem_cons_self k ks)
      exact sBF_append (sBF_append (sBF_append (sBF_append
        (sBF_append hacc (by decide)) (braceFree_pdfPath hpdf hid hk))
        (by decide)) hk) (by decide)
    · exact hacc

set_option maxRecDepth 4096 in
/-- C7 counterexample: the renderer accepts a record whose url field
contains protection markers and emits them verbatim in the link list,
so the rendered citation contains a raw marker character. -/
theorem c7_counterexample :
    okHasBrace (bibtex2html c7entry "pdf/" (fun _ => false)) = true := by
  decide

/-- C7 amended: the rendered citation contains no protection markers
provided the record id, the url field (when present) and the asset
directory path are marker-free; markers coming from every other field
are stripped before the link list is appended. -/
theorem c7_no_braces_cond :
    ∀ (e : Entry) (pdf : String) (isf : String → Bool),
    optBraceFree (getField e "ID") →
    optBraceFree (getField e "url") →
    BraceFree pdf.data →
    okBraceFree (bibtex2html e pdf isf) := by
  intro e pdf isf hID hurl hpdf
  unfold bibtex2html
  cases hd : catchKeyError (dispatchRender e) with
  | error err => exact trivial
  | ok out0 =>
    cases hid : eGet e "ID" with
    | error err => exact trivial
    | ok id =>
      have hid' : getField e "ID" = some id := by
        unfold eGet at hid
        split at hid
        · rename_i hg
          cases hid
          exact hg
        · cases hid
      have hBid : BraceFree id.data := by
        rw [hid'] at hID
        exact hID
      have hfold := braceFree_pdfFold pdf id isf hpdf hBid pdfKinds (by decide)
      cases hu : getField e "url" with
      | some u =>
        have hBu : BraceFree u.data := by
          rw [hu] at hurl
          exact hurl
        refine braceFree_replStr (by decide) ?_
        refine braceFree_replStr (by decide) ?_
        refine braceFree_replStr (by decide) ?_
        refine braceFree_replStr (by decide) ?_
        refine sBF_append ?_ (by decide)
        refine hfold _ ?_
        refine sBF_append ?_ (sBF_append (sBF_append (by decide) hBu) (by decide))
        refine sBF_append (sBF_append (sBF_append ?_ (by decide)) hBid) (by decide)
        exact sBF_append (braceFree_stripBraces out0.data) (by decide)
      | none =>
        refine braceFree_replStr (by decide) ?_
        refine braceFree_replStr (by decide) ?_
        refine braceFree_replStr (by decide) ?_
        refine braceFree_replStr (by decide) ?_
        refine sBF_append ?_ (by decide)
        refine hfold _ ?_
        refine sBF_append ?_ (by decide)
        refine sBF_append (sBF_append (sBF_append ?_ (by decide)) hBid) (by decide)
        exact sBF_append (braceFree_stripBraces out0.data) (by decide)

/-- Witness for C7 at a concrete marker-free record whose author and
title fields do contain markers. -/
theorem c7_witness :
    okBraceFree (bibtex2html c7entryGood "pdf/" (fun _ => true)) :=
  c7_no_braces_cond c7entryGood "pdf/" (fun _ => true) (by decide) (by decide)
    (by decide)

/-- The newline collapse emits no newline. -/
theorem nl_not_mem_collapseNLAux : ∀ (l : List Char) (b : Bool),
    '\n' ∉ collapseNLAux b l := by
  intro l
  induction l with
  | nil => intro b; simp [collapseNLAux]
  | cons c rest ih =>
    intro b
    by_cases hc : c = '\n'
    · cases b <;> simp only [collapseNLAux, if_pos hc]
      · intro h
        rcases List.mem_cons.mp h with h' | h'
        · exact absurd h' (by decide)
        · exact ih true h'
      · exact ih true
    · simp only [collapseNLAux, if_neg hc]
      intro h
      rcases List.mem_cons.mp h with h' | h'
      · exact hc h'.symm
      · exact ih false h'

/-- On a list without newlines the newline collapse is the
identity. -/
theorem collapseNLAux_of_not_mem : ∀ (l : List Char), '\n' ∉ l →
    ∀ b : Bool, collapseNLAux b l = l := by
  intro l
  induction l with
  | nil => intro _ b; rfl
  | cons c rest ih =>
    intro h b
    have hc : ¬ (c = '\n') := fun hh => h (by rw [hh]; exact List.mem_cons_self _ _)
    have hr : '\n' ∉ rest := fun hh => h (List.mem_cons_of_mem c hh)
    simp only [collapseNLAux, if_neg hc, ih hr false]

/-- Splitting never yields an empty token list. -/
theorem splitSpace_ne_nil : ∀ l : List Char, splitSpace l ≠ [] := by
  intro l
  induction l with
  | nil => simp [splitSpace]
  | cons c rest ih =>
    by_cases hc : c = ' '
    · simp [splitSpace, if_pos hc]
    · simp only [splitSpace, if_neg hc]
      cases hsp : splitSpace rest with
      | nil => simp
      | cons t ts => simp

/-- Tokens produced by the split contain no space. -/
theorem space_not_mem_splitSpace : ∀ (l : List Char) (t : List Char),
    t ∈ splitSpace l → ' ' ∉ t := by
  intro l
  induction l with
  | nil =>
    intro t ht
    simp [splitSpace] at ht
    subst ht
    simp
  | cons c rest ih =>
    intro t ht
    by_cases hc : c = ' '
    · simp only [splitSpace, if_pos hc] at ht
      rcases List.mem_cons.mp ht with rfl | ht'
      · simp
      · exact ih t ht'
    · simp only [splitSpace, if_neg hc] at ht
      cases hsp : splitSpace rest with
      | nil => exact absurd hsp (splitSpace_ne_nil rest)
      | cons t0 ts0 =>
        rw [hsp] at ht
        rcases List.mem_cons.mp ht with rfl | ht'
        · intro hsp2
          rcases List.mem_cons.mp hsp2 with h' | h'
          · exact hc h'.symm
          · exact ih t0 (by rw [hsp]; exact List.mem_cons_self _ _) h'
        · exact ih t (by rw [hsp]; exact List.mem_cons_of_mem _ ht')

/-- Characters of split tokens come from the split input. -/
theorem mem_of_mem_splitSpace : ∀ (l t : List Char) (c : Char),
    t ∈ splitSpace l → c ∈ t → c ∈ l := by
  intro l
  induction l with
  | nil =>
    intro t c ht hc
    simp [splitSpace] at ht
    subst ht
    simp at hc
  | cons a rest ih =>
    intro t c ht hc
    by_cases ha : a = ' '
    · simp only [splitSpace, if_pos ha] at ht
      rcases List.mem_cons.mp ht with rfl | ht'
      · simp at hc
      · exact List.mem_cons_of_mem _ (ih t c ht' hc)
    · simp only [splitSpace, if_neg ha] at ht
      cases hsp : splitSpace rest with
      | nil => exact absurd hsp (splitSpace_ne_nil rest)
      | cons t0 ts0 =>
        rw [hsp] at ht
        rcases List.mem_cons.mp ht with rfl | ht'
        · rcases List.mem_cons.mp hc with rfl | hc'
          · exact List.mem_cons_self _ _
          · exact List.mem_cons_of_mem _
              (ih t0 c (by rw [hsp]; exact List.mem_cons_self _ _) hc')
        · exact List.mem_cons_of_mem _
            (ih t c (by rw [hsp]; exact List.mem_cons_of_mem _ ht') hc)

/-- A space-free list splits into itself alone. -/
theorem splitSpace_no_space : ∀ l : List Char, ' ' ∉ l → splitSpace l = [l] := by
  intro l
  induction l with
  | nil => intro _; rfl
  | cons c rest ih =>
    intro h
    have hc : ¬ (c = ' ') := fun hh => h (by rw [hh]; exact List.mem_cons_self _ _)
    have hr : ' ' ∉ rest := fun hh => h (List.mem_cons_of_mem c hh)
    simp only [splitSpace, if_neg hc, ih hr]

/-- Splitting after a space-free token and a space peels the token
off. -/
theorem splitSpace_append_space : ∀ (t r : List Char), ' ' ∉ t →
    splitSpace (t ++ ' ' :: r) = t :: splitSpace r := by
  intro t
  induction t with
  | nil => intro r _; simp [splitSpace]
  | cons c t ih =>
    intro r h
    have hc : ¬ (c = ' ') := fun hh => h (by rw [hh]; exact List.mem_cons_self _ _)
    have ht : ' ' ∉ t := fun hh => h (List.mem_cons_of_mem c hh)
    simp only [List.cons_append, splitSpace, if_neg hc, List.append_eq, ih r ht]

/-- Splitting a join of space-free tokens recovers the tokens. -/
theorem splitSpace_joinSpace : ∀ ts : List (List Char),
    (∀ t ∈ ts, ' ' ∉ t) → ts ≠ [] → splitSpace (joinSpace ts) = ts := by
  intro ts
  induction ts with
  | nil => intro _ h; exact absurd rfl h
  | cons t ts ih =>
    intro hall _
    cases ts with
    | nil => exact splitSpace_no_space t (hall t (by simp))
    | cons t2 ts2 =>
      rw [show joinSpace (t :: t2 :: ts2) = t ++ ' ' :: joinSpace (t2 :: ts2)
        from rfl]
      rw [splitSpace_append_space _ _ (hall t (by simp))]
      rw [ih (fun x hx => hall x (List.mem_cons_of_mem _ hx)) (by simp)]

/-- Characters of a join come from a token or are the separator. -/
theorem mem_joinSpace {c : Char} : ∀ ts : List (List Char),
    c ∈ joinSpace ts → (∃ t ∈ ts, c ∈ t) ∨ c = ' ' := by
  intro ts
  induction ts with
  | nil => intro h; simp [joinSpace] at h
  | cons t ts ih =>
    intro h
    cases ts with
    | nil => exact Or.inl ⟨t, by simp, h⟩
    | cons t2 ts2 =>
      rw [show joinSpace (t :: t2 :: ts2) = t ++ ' ' :: joinSpace (t2 :: ts2)
        from rfl] at h
      rcases List.mem_append.mp h with h' | h'
      · exact Or.inl ⟨t, by simp, h'⟩
      · rcases List.mem_cons.mp h' with rfl | h''
        · exact Or.inr rfl
        · rcases ih h'' with ⟨t', ht', hct'⟩ | hsp
          · exact Or.inl ⟨t', List.mem_cons_of_mem _ ht', hct'⟩
          · exact Or.inr hsp

/-- The marker strip distributes over concatenation. -/
theorem stripBraces_append (a b : List Char) :
    stripBraces (a ++ b) = stripBraces a ++ stripBraces b :=
  List.filter_append _ _

/-- Stripping a marker character removes it. -/
theorem stripBraces_cons_brace {c : Char} (hc : c = lbrace ∨ c = rbrace)
    (x : List Char) : stripBraces (c :: x) = stripBraces x := by
  rcases hc with rfl | rfl <;> exact List.filter_cons_of_neg (by simp)

/-- Stripping keeps a non-marker character. -/
theorem stripBraces_cons_other {c : Char} (h1 : c ≠ lbrace) (h2 : c ≠ rbrace)
    (x : List Char) : stripBraces (c :: x) = c :: stripBraces x :=
  List.filter_cons_of_pos (by simp [h1, h2])

/-- Stripping a marker-free list is the identity. -/
theorem stripBraces_of_braceFree {l : List Char} (h : BraceFree l) :
    stripBraces l = l := by
  apply List.filter_eq_self.mpr
  intro a ha
  have h1 : a ≠ lbrace := fun hh => h.1 (hh ▸ ha)
  have h2 : a ≠ rbrace := fun hh => h.2 (hh ▸ ha)
  simp [h1, h2]

/-- Stripping undoes a wrap. -/
theorem stripBraces_wrapIf (t : List Char) :
    stripBraces (wrapIf t) = stripBraces t := by
  unfold wrapIf
  split
  · rw [List.cons_append, stripBraces_cons_brace (Or.inl rfl), stripBraces_append]
    rw [stripBraces_cons_brace (Or.inr rfl)]
    simp [stripBraces]
  · rfl

/-- The strip distributes over the space join. -/
theorem stripBraces_joinSpace : ∀ ts : List (List Char),
    stripBraces (joinSpace ts) = joinSpace (ts.map stripBraces) := by
  intro ts
  induction ts with
  | nil => rfl
  | cons t ts ih =>
    cases ts with
    | nil => rfl
    | cons t2 ts2 =>
      rw [show joinSpace (t :: t2 :: ts2) = t ++ ' ' :: joinSpace (t2 :: ts2)
        from rfl]
      rw [stripBraces_append, stripBraces_cons_other (by decide) (by decide), ih]
      rfl

/-- Characters of a wrap come from the token or are markers. -/
theorem mem_wrapIf {c : Char} {t : List Char} (h : c ∈ wrapIf t) :
    c ∈ t ∨ c = lbrace ∨ c = rbrace := by
  unfold wrapIf at h
  split at h
  · rcases List.mem_cons.mp h with rfl | h'
    · exact Or.inr (Or.inl rfl)
    · rcases List.mem_append.mp h' with h'' | h''
      · exact Or.inl h''
      · exact Or.inr (Or.inr (by simpa using h''))
  · exact Or.inl h

/-- The title protection transform is idempotent. -/
theorem protectTitle_idem (l : List Char) :
    protectTitle (protectTitle l) = protectTitle l := by
  unfold protectTitle
  have hBF : ∀ t ∈ splitSpace (stripBraces l), BraceFree t := by
    intro t ht
    refine ⟨fun hm => (braceFree_stripBraces l).1 ?_,
      fun hm => (braceFree_stripBraces l).2 ?_⟩
    · exact mem_of_mem_splitSpace _ t lbrace ht hm
    · exact mem_of_mem_splitSpace _ t rbrace ht hm
  have hstrip :
      stripBraces (joinSpace ((splitSpace (stripBraces l)).map wrapIf)) =
        joinSpace (splitSpace (stripBraces l)) := by
    rw [stripBraces_joinSpace, List.map_map]
    have heq : ∀ t ∈ splitSpace (stripBraces l),
        (stripBraces ∘ wrapIf) t = id t := by
      intro t ht
      simp only [Function.comp_apply, id_eq]
      rw [stripBraces_wrapIf]
      exact stripBraces_of_braceFree (hBF t ht)
    rw [List.map_congr_left heq, List.map_id]
  rw [hstrip]
  rw [splitSpace_joinSpace _ (fun t ht => space_not_mem_splitSpace _ t ht)
    (splitSpace_ne_nil _)]

/-- The title protection emits no newline when its input holds
none. -/
theorem nl_not_mem_protectTitle {l : List Char} (h : '\n' ∉ l) :
    '\n' ∉ protectTitle l := by
  intro hmem
  unfold protectTitle at hmem
  rcases mem_joinSpace _ hmem with ⟨t, ht, hct⟩ | heq
  · rcases List.mem_map.mp ht with ⟨t0, ht0, rfl⟩
    rcases mem_wrapIf hct with hc | hc | hc
    · exact h ((List.mem_filter.mp (mem_of_mem_splitSpace _ t0 '\n' ht0 hc)).1)
    · exact absurd hc (by decide)
    · exact absurd hc (by decide)
  · exact absurd heq (by decide)

/-- A dash character is not whitespace. -/
theorem dashNotWs {c : Char} (h : isDashC c = true) : isWsC c = false := by
  simp [isDashC] at h
  rcases h with rfl | rfl <;> decide

/-- A whitespace character is not a dash. -/
theorem wsNotDash {c : Char} (h : isWsC c = true) : isDashC c = false := by
  simp [isWsC] at h
  rcases h with ((((rfl | rfl) | rfl) | rfl) | rfl) | rfl <;> decide

/-- Unfolding equation of the dash-whitespace-dash test. -/
theorem hasDashWsDash_cons (c : Char) (rest : List Char) :
    hasDashWsDash (c :: rest) =
      ((isDashC c && startsWsPlusDash rest) || hasDashWsDash rest) := rfl

/-- The tail of a list without the dash-whitespace-dash pattern is
also without it. -/
theorem hasDashWsDash_cons_false {c : Char} {rest : List Char}
    (h : hasDashWsDash (c :: rest) = false) : hasDashWsDash rest = false := by
  rw [hasDashWsDash_cons] at h
  exact (Bool.or_eq_false_iff.mp h).2

/-- After a dash, a pattern-free list does not continue with
whitespace and another dash. -/
theorem startsWsPlusDash_rest_false {c : Char} {rest : List Char}
    (h : hasDashWsDash (c :: rest) = false) (hc : isDashC c = true) :
    startsWsPlusDash rest = false := by
  rw [hasDashWsDash_cons] at h
  have h1 := (Bool.or_eq_false_iff.mp h).1
  rw [hc, Bool.true_and] at h1
  exact h1

/-- Dropping a leading whitespace character preserves the
whitespace-then-dash test. -/
theorem startsWsStarDash_cons_ws {c : Char} (hc : isWsC c = true)
    (rest : List Char) :
    startsWsStarDash (c :: rest) = startsWsStarDash rest := by
  unfold startsWsStarDash
  rw [List.dropWhile_cons, if_pos hc]

/-- A list beginning with a dash passes the whitespace-then-dash
test. -/
theorem startsWsStarDash_cons_dash {c : Char} (hc : isDashC c = true)
    (rest : List Char) : startsWsStarDash (c :: rest) = true := by
  unfold startsWsStarDash
  rw [List.dropWhile_cons, if_neg (by simp [dashNotWs hc])]
  exact hc

/-- Unfolding equation of the plus-test on a cons. -/
theorem startsWsPlusDash_cons (c : Char) (rest : List Char) :
    startsWsPlusDash (c :: rest) = (isWsC c && startsWsStarDash (c :: rest)) :=
  rfl

/-- Splitting the plus-test at a leading whitespace character. -/
theorem startsWsPlusDash_cons_ws_false {c : Char} {rest : List Char}
    (h : startsWsPlusDash (c :: rest) = false) (hc : isWsC c = true) :
    startsWsStarDash rest = false := by
  rw [startsWsPlusDash_cons, hc, Bool.true_and,
    startsWsStarDash_cons_ws hc] at h
  exact h

/-- A pair with a neutral left component is always fine. -/
theorem okPair_of_neutral_left {a b : Char} (h1 : isDashC a = false)
    (h2 : isWsC a = false) : okPair a b = true := by
  simp [okPair, h1, h2]

/-- A pair of whitespace before a non-dash is fine. -/
theorem okPair_ws_nondash {a b : Char} (ha : isWsC a = true)
    (hb : isDashC b = false) : okPair a b = true := by
  simp [okPair, hb, wsNotDash ha]

/-- A pair of a hyphen before a neutral character is fine. -/
theorem okPair_dash {b : Char} (h1 : isDashC b = false) (h2 : isWsC b = false) :
    okPair '-' b = true := by
  simp [okPair, h1, h2]

/-- A fine pair with a dash on the left forces a neutral right
component. -/
theorem okPair_dash_left_elim {a b : Char} (ha : isDashC a = true)
    (h : okPair a b = true) : isDashC b = false ∧ isWsC b = false := by
  simp [okPair, ha] at h
  exact h.1

/-- A fine pair with whitespace on the left forces a non-dash right
component. -/
theorem okPair_ws_left_elim {a b : Char} (ha : isWsC a = true)
    (h : okPair a b = true) : isDashC b = false := by
  simp [okPair, ha] at h
  exact h.2

/-- Dropping the head preserves dash isolation. -/
theorem isolatedDashes_cons_elim {a : Char} {O : List Char}
    (h : isolatedDashes (a :: O) = true) : isolatedDashes O = true := by
  cases O with
  | nil => rfl
  | cons b O' =>
    rw [show isolatedDashes (a :: b :: O') =
      (okPair a b && isolatedDashes (b :: O')) from rfl] at h
    rw [Bool.and_eq_true] at h
    exact h.2

/-- Building dash isolation from a head pair condition. -/
theorem isolatedDashes_cons_of {a : Char} {O : List Char}
    (hok : ∀ b rest, O = b :: rest → okPair a b = true)
    (h : isolatedDashes O = true) : isolatedDashes (a :: O) = true := by
  cases O with
  | nil => rfl
  | cons b rest =>
    rw [show isolatedDashes (a :: b :: rest) =
      (okPair a b && isolatedDashes (b :: rest)) from rfl]
    rw [hok b rest rfl, h]
    rfl

/-- Consing a neutral character preserves dash isolation. -/
theorem isolatedDashes_cons_neutral {c : Char} {O : List Char}
    (h1 : isDashC c = false) (h2 : isWsC c = false)
    (h3 : isolatedDashes O = true) : isolatedDashes (c :: O) = true :=
  isolatedDashes_cons_of (fun _ _ _ => okPair_of_neutral_left h1 h2) h3

/-- Consing a hyphen before a neutral head preserves dash
isolation. -/
theorem isolatedDashes_cons_dash {O : List Char}
    (h3 : isolatedDashes O = true) (h4 : headNeutral O) :
    isolatedDashes ('-' :: O) = true := by
  refine isolatedDashes_cons_of (fun b rest hO => ?_) h3
  subst hO
  exact okPair_dash h4.1 h4.2

/-- A list of whitespace characters has isolated dashes. -/
theorem isolatedDashes_all_ws : ∀ p : List Char,
    (∀ x ∈ p, isWsC x = true) → isolatedDashes p = true := by
  intro p
  induction p with
  | nil => intro _; rfl
  | cons a q ih =>
    intro hp
    refine isolatedDashes_cons_of (fun b rest hq => ?_)
      (ih fun x hx => hp x (List.mem_cons_of_mem _ hx))
    have hb : isWsC b = true := hp b (by rw [hq]; simp)
    exact okPair_ws_nondash (hp a (List.mem_cons_self _ _)) (wsNotDash hb)

/-- Prefixing whitespace before a non-dash head preserves dash
isolation. -/
theorem isolatedDashes_ws_prefix : ∀ (p : List Char) {c : Char} {O : List Char},
    (∀ x ∈ p, isWsC x = true) → isDashC c = false →
    isolatedDashes (c :: O) = true → isolatedDashes (p ++ c :: O) = true := by
  intro p
  induction p with
  | nil => intro c O _ _ h; simpa using h
  | cons a q ih =>
    intro c O hp hc h
    have hq : ∀ x ∈ q, isWsC x = true := fun x hx => hp x (List.mem_cons_of_mem _ hx)
    rw [List.cons_append]
    refine isolatedDashes_cons_of (fun b rest heq => ?_) (ih hq hc h)
    cases q with
    | nil =>
      simp only [List.nil_append] at heq
      obtain ⟨rfl, -⟩ := List.cons.inj heq
      exact okPair_ws_nondash (hp a (List.mem_cons_self _ _)) hc
    | cons q0 q' =>
      rw [List.cons_append] at heq
      obtain ⟨rfl, -⟩ := List.cons.inj heq
      exact okPair_ws_nondash (hp a (List.mem_cons_self _ _))
        (wsNotDash (hq q0 (List.mem_cons_self _ _)))

/-- The dash scanner run on an input free of the
dash-whitespace-dash pattern (with the matching per-state
precondition) emits only isolated dashes, and from the in-match
states its output starts with a neutral character when non-empty. -/
theorem isolatedDashes_collapseDashAux :
    ∀ (l : List Char) (s : DState) (pend : List Char),
    dPre s l → (∀ x ∈ pend, isWsC x = true) →
    isolatedDashes (collapseDashAux s pend l) = true ∧
    (s ≠ DState.norm → headNeutral (collapseDashAux s pend l)) := by
  intro l
  induction l with
  | nil =>
    intro s pend _ hpend
    cases s with
    | norm =>
      refine ⟨?_, fun hne => absurd rfl hne⟩
      simp only [collapseDashAux]
      exact isolatedDashes_all_ws _
        (fun x hx => hpend x (List.mem_reverse.mp hx))
    | inDash => exact ⟨rfl, fun _ => trivial⟩
    | trailWs => exact ⟨rfl, fun _ => trivial⟩
  | cons c rest ih =>
    intro s pend hpre hpend
    cases s with
    | norm =>
      have hH : hasDashWsDash (c :: rest) = false := hpre
      have h1 : hasDashWsDash rest = false := hasDashWsDash_cons_false hH
      cases hdc : isDashC c with
      | true =>
        have h2 : startsWsPlusDash rest = false :=
          startsWsPlusDash_rest_false hH hdc
        have hrec := ih DState.inDash [] ⟨h1, h2⟩ (by intro x hx; simp at hx)
        have hstep : collapseDashAux DState.norm pend (c :: rest) =
            '-' :: collapseDashAux DState.inDash [] rest := by
          simp [collapseDashAux, hdc]
        refine ⟨?_, fun hne => absurd rfl hne⟩
        rw [hstep]
        exact isolatedDashes_cons_dash hrec.1 (hrec.2 (by intro hh; cases hh))
      | false =>
        cases hwc : isWsC c with
        | true =>
          have hpend' : ∀ x ∈ (c :: pend), isWsC x = true := by
            intro x hx
            rcases List.mem_cons.mp hx with rfl | hx'
            · exact hwc
            · exact hpend x hx'
          have hrec := ih DState.norm (c :: pend) h1 hpend'
          have hstep : collapseDashAux DState.norm pend (c :: rest) =
              collapseDashAux DState.norm (c :: pend) rest := by
            simp [collapseDashAux, hdc, hwc]
          refine ⟨?_, fun hne => absurd rfl hne⟩
          rw [hstep]
          exact hrec.1
        | false =>
          have hrec := ih DState.norm [] h1 (by intro x hx; simp at hx)
          have hstep : collapseDashAux DState.norm pend (c :: rest) =
              pend.reverse ++ c :: collapseDashAux DState.norm [] rest := by
            simp [collapseDashAux, hdc, hwc]
          refine ⟨?_, fun hne => absurd rfl hne⟩
          rw [hstep]
          exact isolatedDashes_ws_prefix _
            (fun x hx => hpend x (List.mem_reverse.mp hx)) hdc
            (isolatedDashes_cons_neutral hdc hwc hrec.1)
    | inDash =>
      have hpre' : hasDashWsDash (c :: rest) = false ∧
          startsWsPlusDash (c :: rest) = false := hpre
      obtain ⟨hH, hS⟩ := hpre'
      have h1 : hasDashWsDash rest = false := hasDashWsDash_cons_false hH
      cases hdc : isDashC c with
      | true =>
        have h2 : startsWsPlusDash rest = false :=
          startsWsPlusDash_rest_false hH hdc
        have hrec := ih DState.inDash pend ⟨h1, h2⟩ hpend
        have hstep : collapseDashAux DState.inDash pend (c :: rest) =
            collapseDashAux DState.inDash pend rest := by
          simp [collapseDashAux, hdc]
        rw [hstep]
        exact ⟨hrec.1, fun _ => hrec.2 (by intro hh; cases hh)⟩
      | false =>
        cases hwc : isWsC c with
        | true =>
          have h2 : startsWsStarDash rest = false :=
            startsWsPlusDash_cons_ws_false hS hwc
          have hrec := ih DState.trailWs pend ⟨h1, h2⟩ hpend
          have hstep : collapseDashAux DState.inDash pend (c :: rest) =
              collapseDashAux DState.trailWs pend rest := by
            simp [collapseDashAux, hdc, hwc]
          rw [hstep]
          exact ⟨hrec.1, fun _ => hrec.2 (by intro hh; cases hh)⟩
        | false =>
          have hrec := ih DState.norm [] h1 (by intro x hx; simp at hx)
          have hstep : collapseDashAux DState.inDash pend (c :: rest) =
              c :: collapseDashAux DState.norm [] rest := by
            simp [collapseDashAux, hdc, hwc]
          rw [hstep]
          exact ⟨isolatedDashes_cons_neutral hdc hwc hrec.1,
            fun _ => ⟨hdc, hwc⟩⟩
    | trailWs =>
      have hpre' : hasDashWsDash (c :: rest) = false ∧
          startsWsStarDash (c :: rest) = false := hpre
      obtain ⟨hH, hS⟩ := hpre'
      have h1 : hasDashWsDash rest = false := hasDashWsDash_cons_false hH
      cases hdc : isDashC c with
      | true =>
        exfalso
        rw [startsWsStarDash_cons_dash hdc] at hS
        cases hS
      | false =>
        cases hwc : isWsC c with
        | true =>
          have h2 : startsWsStarDash rest = false := by
            rwa [startsWsStarDash_cons_ws hwc] at hS
          have hrec := ih DState.trailWs pend ⟨h1, h2⟩ hpend
          have hstep : collapseDashAux DState.trailWs pend (c :: rest) =
              collapseDashAux DState.trailWs pend rest := by
            simp [collapseDashAux, hdc, hwc]
          rw [hstep]
          exact ⟨hrec.1, fun _ => hrec.2 (by intro hh; cases hh)⟩
        | false =>
          have hrec := ih DState.norm [] h1 (by intro x hx; simp at hx)
          have hstep : collapseDashAux DState.trailWs pend (c :: rest) =
              c :: collapseDashAux DState.norm [] rest := by
            simp [collapseDashAux, hdc, hwc]
          rw [hstep]
          exact ⟨isolatedDashes_cons_neutral hdc hwc hrec.1,
            fun _ => ⟨hdc, hwc⟩⟩

/-- On an input whose dashes are isolated, the dash scanner only
rewrites each dash character to a hyphen (flushing any pending
whitespace first). -/
theorem collapseDashAux_isolated :
    ∀ (l : List Char) (s : DState) (pend : List Char),
    isolatedDashes l = true →
    (s = DState.norm →
      (∀ x ∈ pend, isWsC x = true) ∧ (pend ≠ [] → headNotDash l)) →
    (s = DState.inDash → headNeutral l) →
    s ≠ DState.trailWs →
    collapseDashAux s pend l =
      (if s = DState.norm then pend.reverse else []) ++ mapDashHyphen l := by
  intro l
  induction l with
  | nil =>
    intro s pend _ _ _ htr
    cases s with
    | norm => simp [collapseDashAux, mapDashHyphen]
    | inDash => simp [collapseDashAux, mapDashHyphen]
    | trailWs => exact absurd rfl htr
  | cons c rest ih =>
    intro s pend hiso hnorm hin htr
    have hisoRest : isolatedDashes rest = true := isolatedDashes_cons_elim hiso
    cases s with
    | norm =>
      obtain ⟨hpend, hhead⟩ := hnorm rfl
      cases hdc : isDashC c with
      | true =>
        have hpnil : pend = [] := by
          cases pend with
          | nil => rfl
          | cons p q =>
            have := hhead (by simp)
            rw [show headNotDash (c :: rest) = (isDashC c = false) from rfl]
              at this
            rw [hdc] at this
            cases this
        subst hpnil
        have hhn : headNeutral rest := by
          cases rest with
          | nil => trivial
          | cons b r =>
            have hok : okPair c b = true := by
              have := hiso
              rw [show isolatedDashes (c :: b :: r) =
                (okPair c b && isolatedDashes (b :: r)) from rfl,
                Bool.and_eq_true] at this
              exact this.1
            exact okPair_dash_left_elim hdc hok
        have hrec := ih DState.inDash [] hisoRest
          (by intro hh; cases hh) (fun _ => hhn) (by intro hh; cases hh)
        have hstep : collapseDashAux DState.norm [] (c :: rest) =
            '-' :: collapseDashAux DState.inDash [] rest := by
          simp [collapseDashAux, hdc]
        rw [hstep, hrec]
        simp [mapDashHyphen, hdc]
      | false =>
        cases hwc : isWsC c with
        | true =>
          have hheadrest : headNotDash rest := by
            cases rest with
            | nil => trivial
            | cons b r =>
              have hok : okPair c b = true := by
                have := hiso
                rw [show isolatedDashes (c :: b :: r) =
                  (okPair c b && isolatedDashes (b :: r)) from rfl,
                  Bool.and_eq_true] at this
                exact this.1
              exact okPair_ws_left_elim hwc hok
          have hpend' : ∀ x ∈ (c :: pend), isWsC x = true := by
            intro x hx
            rcases List.mem_cons.mp hx with rfl | hx'
            · exact hwc
            · exact hpend x hx'
          have hrec := ih DState.norm (c :: pend) hisoRest
            (fun _ => ⟨hpend', fun _ => hheadrest⟩) (by intro hh; cases hh)
            (by intro hh; cases hh)
          have hstep : collapseDashAux DState.norm pend (c :: rest) =
              collapseDashAux DState.norm (c :: pend) rest := by
            simp [collapseDashAux, hdc, hwc]
          rw [hstep, hrec]
          simp [mapDashHyphen, hdc, List.append_assoc]
        | false =>
          have hrec := ih DState.norm [] hisoRest
            (fun _ => ⟨by intro x hx; simp at hx, fun hh => absurd rfl hh⟩)
            (by intro hh; cases hh) (by intro hh; cases hh)
          have hstep : collapseDashAux DState.norm pend (c :: rest) =
              pend.reverse ++ c :: collapseDashAux DState.norm [] rest := by
            simp [collapseDashAux, hdc, hwc]
          rw [hstep, hrec]
          simp [mapDashHyphen, hdc]
    | inDash =>
      have hhn := hin rfl
      have hhn' : isDashC c = false ∧ isWsC c = false := hhn
      have hrec := ih DState.norm [] hisoRest
        (fun _ => ⟨by intro x hx; simp at hx, fun hh => absurd rfl hh⟩)
        (by intro hh; cases hh) (by intro hh; cases hh)
      have hstep : collapseDashAux DState.inDash pend (c :: rest) =
          c :: collapseDashAux DState.norm [] rest := by
        simp [collapseDashAux, hhn'.1, hhn'.2]
      rw [hstep, hrec]
      simp [mapDashHyphen, hhn'.1]
    | trailWs => exact absurd rfl htr

/-- On an isolated-dash list, the whole first substitution is the
pointwise dash-to-hyphen map. -/
theorem collapseDash_of_isolated {l : List Char}
    (h : isolatedDashes l = true) : collapseDash l = mapDashHyphen l := by
  have := collapseDashAux_isolated l DState.norm [] h
    (fun _ => ⟨by intro x hx; simp at hx, fun hh => absurd rfl hh⟩)
    (by intro hh; cases hh) (by intro hh; cases hh)
  simpa [collapseDash] using this

/-- A map preserving the dash and whitespace classes preserves dash
isolation. -/
theorem isolatedDashes_map {f : Char → Char}
    (hf : ∀ c, isDashC (f c) = isDashC c ∧ isWsC (f c) = isWsC c) :
    ∀ l : List Char, isolatedDashes (List.map f l) = isolatedDashes l := by
  intro l
  induction l with
  | nil => rfl
  | cons a t ih =>
    cases t with
    | nil => rfl
    | cons b r =>
      rw [List.map_cons, List.map_cons]
      rw [show isolatedDashes (f a :: f b :: List.map f r) =
        (okPair (f a) (f b) && isolatedDashes (f b :: List.map f r)) from rfl]
      rw [show isolatedDashes (a :: b :: r) =
        (okPair a b && isolatedDashes (b :: r)) from rfl]
      rw [show (f b :: List.map f r) = List.map f (b :: r) from rfl, ih]
      have hok : okPair (f a) (f b) = okPair a b := by
        unfold okPair
        rw [(hf a).1, (hf a).2, (hf b).1, (hf b).2]
      rw [hok]

/-- The hyphen-to-en-dash map preserves the character classes. -/
theorem dashToEnChar_classes (c : Char) :
    isDashC (if c = '-' then enDash else c) = isDashC c ∧
      isWsC (if c = '-' then enDash else c) = isWsC c := by
  by_cases hc : c = '-'
  · subst hc
    refine ⟨?_, ?_⟩ <;> simp <;> decide
  · simp [hc]

/-- Every dash in the output of the en-dash replacement is the
en-dash. -/
theorem dash_eq_en_of_mem_dashToEn {c : Char} {l : List Char}
    (h : c ∈ dashToEn l) (hd : isDashC c = true) : c = enDash := by
  rcases List.mem_map.mp h with ⟨a, ha, rfl⟩
  by_cases hc : a = '-'
  · simp [hc]
  · rw [if_neg hc] at hd ⊢
    simp [isDashC, hc] at hd
    exact hd

/-- Characters of the en-dash replacement come from the input or are
the en-dash. -/
theorem mem_dashToEn {c : Char} {l : List Char} (h : c ∈ dashToEn l) :
    c ∈ l ∨ c = enDash := by
  rcases List.mem_map.mp h with ⟨a, ha, rfl⟩
  by_cases hc : a = '-'
  · exact Or.inr (by simp [hc])
  · exact Or.inl (by simpa [hc] using ha)

/-- Replacing dashes by hyphens and then hyphens by en-dashes is the
identity on lists whose dashes are all the en-dash. -/
theorem dashToEn_mapDashHyphen {l : List Char}
    (h : ∀ c ∈ l, isDashC c = true → c = enDash) :
    dashToEn (mapDashHyphen l) = l := by
  unfold dashToEn mapDashHyphen
  rw [List.map_map]
  have heq : ∀ a ∈ l,
      ((fun c => if c = '-' then enDash else c) ∘
        (fun c => if isDashC c then '-' else c)) a = id a := by
    intro a ha
    simp only [Function.comp_apply, id_eq]
    by_cases hda : isDashC a = true
    · rw [if_pos hda, if_pos rfl]
      exact (h a ha hda).symm
    · have hda' : isDashC a = false := by
        cases hq : isDashC a
        · rfl
        · exact absurd hq hda
      rw [if_neg hda]
      have : ¬ (a = '-') := by
        intro hh
        rw [hh] at hda'
        cases hda'
      rw [if_neg this]
  rw [List.map_congr_left heq, List.map_id]

/-- Characters of the dash scanner output come from the pending
whitespace, the input, or are the replacement hyphen. -/
theorem mem_collapseDashAux {c : Char} :
    ∀ (l : List Char) (s : DState) (pend : List Char),
    c ∈ collapseDashAux s pend l → c ∈ pend ∨ c ∈ l ∨ c = '-' := by
  intro l
  induction l with
  | nil =>
    intro s pend h
    cases s with
    | norm =>
      simp only [collapseDashAux] at h
      exact Or.inl (List.mem_reverse.mp h)
    | inDash => simp [collapseDashAux] at h
    | trailWs => simp [collapseDashAux] at h
  | cons a rest ih =>
    intro s pend h
    cases s with
    | norm =>
      cases hdc : isDashC a with
      | true =>
        rw [show collapseDashAux DState.norm pend (a :: rest) =
          '-' :: collapseDashAux DState.inDash [] rest from by
            simp [collapseDashAux, hdc]] at h
        rcases List.mem_cons.mp h with rfl | h'
        · exact Or.inr (Or.inr rfl)
        · rcases ih DState.inDash [] h' with h'' | h'' | h''
          · simp at h''
          · exact Or.inr (Or.inl (List.mem_cons_of_mem _ h''))
          · exact Or.inr (Or.inr h'')
      | false =>
        cases hwc : isWsC a with
        | true =>
          rw [show collapseDashAux DState.norm pend (a :: rest) =
            collapseDashAux DState.norm (a :: pend) rest from by
              simp [collapseDashAux, hdc, hwc]] at h
          rcases ih DState.norm (a :: pend) h with h'' | h'' | h''
          · rcases List.mem_cons.mp h'' with rfl | hp
            · exact Or.inr (Or.inl (List.mem_cons_self _ _))
            · exact Or.inl hp
          · exact Or.inr (Or.inl (List.mem_cons_of_mem _ h''))
          · exact Or.inr (Or.inr h'')
        | false =>
          rw [show collapseDashAux DState.norm pend (a :: rest) =
            pend.reverse ++ a :: collapseDashAux DState.norm [] rest from by
              simp [collapseDashAux, hdc, hwc]] at h
          rcases List.mem_append.mp h with h' | h'
          · exact Or.inl (List.mem_reverse.mp h')
          · rcases List.mem_cons.mp h' with rfl | h''
            · exact Or.inr (Or.inl (List.mem_cons_self _ _))
            · rcases ih DState.norm [] h'' with h3 | h3 | h3
              · simp at h3
              · exact Or.inr (Or.inl (List.mem_cons_of_mem _ h3))
              · exact Or.inr (Or.inr h3)
    | inDash =>
      cases hdc : isDashC a with
      | true =>
        rw [show collapseDashAux DState.inDash pend (a :: rest) =
          collapseDashAux DState.inDash pend rest from by
            simp [collapseDashAux, hdc]] at h
        rcases ih DState.inDash pend h with h'' | h'' | h''
        · exact Or.inl h''
        · exact Or.inr (Or.inl (List.mem_cons_of_mem _ h''))
        · exact Or.inr (Or.inr h'')
      | false =>
        cases hwc : isWsC a with
        | true =>
          rw [show collapseDashAux DState.inDash pend (a :: rest) =
            collapseDashAux DState.trailWs pend rest from by
              simp [collapseDashAux, hdc, hwc]] at h
          rcases ih DState.trailWs pend h with h'' | h'' | h''
          · exact Or.inl h''
          · exact Or.inr (Or.inl (List.mem_cons_of_mem _ h''))
          · exact Or.inr (Or.inr h'')
        | false =>
          rw [show collapseDashAux DState.inDash pend (a :: rest) =
            a :: collapseDashAux DState.norm [] rest from by
              simp [collapseDashAux, hdc, hwc]] at h
          rcases List.mem_cons.mp h with rfl | h'
          · exact Or.inr (Or.inl (List.mem_cons_self _ _))
          · rcases ih DState.norm [] h' with h3 | h3 | h3
            · simp at h3
            · exact Or.inr (Or.inl (List.mem_cons_of_mem _ h3))
            · exact Or.inr (Or.inr h3)
    | trailWs =>
      cases hdc : isDashC a with
      | true =>
        rw [show collapseDashAux DState.trailWs pend (a :: rest) =
          '-' :: collapseDashAux DState.inDash pend rest from by
            simp [collapseDashAux, hdc]] at h
        rcases List.mem_cons.mp h with rfl | h'
        · exact Or.inr (Or.inr rfl)
        · rcases ih DState.inDash pend h' with h'' | h'' | h''
          · exact Or.inl h''
          · exact Or.inr (Or.inl (List.mem_cons_of_mem _ h''))
          · exact Or.inr (Or.inr h'')
      | false =>
        cases hwc : isWsC a with
        | true =>
          rw [show collapseDashAux DState.trailWs pend (a :: rest) =
            collapseDashAux DState.trailWs pend rest from by
              simp [collapseDashAux, hdc, hwc]] at h
          rcases ih DState.trailWs pend h with h'' | h'' | h''
          · exact Or.inl h''
          · exact Or.inr (Or.inl (List.mem_cons_of_mem _ h''))
          · exact Or.inr (Or.inr h'')
        | false =>
          rw [show collapseDashAux DState.trailWs pend (a :: rest) =
            a :: collapseDashAux DState.norm [] rest from by
              simp [collapseDashAux, hdc, hwc]] at h
          rcases List.mem_cons.mp h with rfl | h'
          · exact Or.inr (Or.inl (List.mem_cons_self _ _))
          · rcases ih DState.norm [] h' with h3 | h3 | h3
            · simp at h3
            · exact Or.inr (Or.inl (List.mem_cons_of_mem _ h3))
            · exact Or.inr (Or.inr h3)

/-- Wrapper: the newline collapse is the identity without
newlines. -/
theorem collapseNL_of_not_mem {l : List Char} (h : '\n' ∉ l) :
    collapseNL l = l :=
  collapseNLAux_of_not_mem l h false

/-- A list starting with a neutral character fails the
whitespace-then-dash test. -/
theorem startsWsStarDash_cons_other {c : Char} (h1 : isWsC c = false)
    (h2 : isDashC c = false) (rest : List Char) :
    startsWsStarDash (c :: rest) = false := by
  unfold startsWsStarDash
  rw [List.dropWhile_cons, if_neg (by simp [h1])]
  exact h2

/-- Passing the plus-test implies passing the star-test. -/
theorem startsWsPlusDash_imp_star {l : List Char}
    (h : startsWsPlusDash l = true) : startsWsStarDash l = true := by
  cases l with
  | nil => cases h
  | cons c r =>
    rw [startsWsPlusDash_cons, Bool.and_eq_true] at h
    exact h.2

/-- The direct scanner agrees with the lookahead test, in every
state. -/
theorem hasDWDAux_spec : ∀ l : List Char,
    hasDWDAux WState.no l = hasDashWsDash l ∧
    hasDWDAux WState.dash l = (startsWsPlusDash l || hasDashWsDash l) ∧
    hasDWDAux WState.dashWs l = (startsWsStarDash l || hasDashWsDash l) := by
  intro l
  induction l with
  | nil => exact ⟨rfl, rfl, rfl⟩
  | cons c r ih =>
    obtain ⟨ih1, ih2, ih3⟩ := ih
    cases hdc : isDashC c with
    | true =>
      have hwc : isWsC c = false := dashNotWs hdc
      refine ⟨?_, ?_, ?_⟩
      · rw [show hasDWDAux WState.no (c :: r) = hasDWDAux WState.dash r
          from by simp [hasDWDAux, hdc]]
        rw [ih2, hasDashWsDash_cons, hdc, Bool.true_and]
      · rw [show hasDWDAux WState.dash (c :: r) = hasDWDAux WState.dash r
          from by simp [hasDWDAux, hdc]]
        rw [ih2, startsWsPlusDash_cons, hwc, Bool.false_and, Bool.false_or,
          hasDashWsDash_cons, hdc, Bool.true_and]
      · rw [show hasDWDAux WState.dashWs (c :: r) = true
          from by simp [hasDWDAux, hdc]]
        rw [startsWsStarDash_cons_dash hdc, Bool.true_or]
    | false =>
      cases hwc : isWsC c with
      | true =>
        refine ⟨?_, ?_, ?_⟩
        · rw [show hasDWDAux WState.no (c :: r) = hasDWDAux WState.no r
            from by simp [hasDWDAux, hdc]]
          rw [ih1, hasDashWsDash_cons, hdc, Bool.false_and, Bool.false_or]
        · rw [show hasDWDAux WState.dash (c :: r) = hasDWDAux WState.dashWs r
            from by simp [hasDWDAux, hdc, hwc]]
          rw [ih3, startsWsPlusDash_cons, hwc, Bool.true_and,
            startsWsStarDash_cons_ws hwc, hasDashWsDash_cons, hdc,
            Bool.false_and, Bool.false_or]
        · rw [show hasDWDAux WState.dashWs (c :: r) = hasDWDAux WState.dashWs r
            from by simp [hasDWDAux, hdc, hwc]]
          rw [ih3, startsWsStarDash_cons_ws hwc, hasDashWsDash_cons, hdc,
            Bool.false_and, Bool.false_or]
      | false =>
        refine ⟨?_, ?_, ?_⟩
        · rw [show hasDWDAux WState.no (c :: r) = hasDWDAux WState.no r
            from by simp [hasDWDAux, hdc]]
          rw [ih1, hasDashWsDash_cons, hdc, Bool.false_and, Bool.false_or]
        · rw [show hasDWDAux WState.dash (c :: r) = hasDWDAux WState.no r
            from by simp [hasDWDAux, hdc, hwc]]
          rw [ih1, startsWsPlusDash_cons, hwc, Bool.false_and, Bool.false_or,
            hasDashWsDash_cons, hdc, Bool.false_and, Bool.false_or]
        · rw [show hasDWDAux WState.dashWs (c :: r) = hasDWDAux WState.no r
            from by simp [hasDWDAux, hdc, hwc]]
          rw [ih1, startsWsStarDash_cons_other hwc hdc, Bool.false_or,
            hasDashWsDash_cons, hdc, Bool.false_and, Bool.false_or]

/-- Detection from the dash state implies detection from the
dash-then-whitespace state. -/
theorem hasDWDAux_dash_mono {l : List Char}
    (h : hasDWDAux WState.dash l = true) :
    hasDWDAux WState.dashWs l = true := by
  obtain ⟨-, h2, h3⟩ := hasDWDAux_spec l
  rw [h2] at h
  rw [h3]
  cases hq : startsWsPlusDash l with
  | true =>
    rw [startsWsPlusDash_imp_star hq, Bool.true_or]
  | false =>
    rw [hq, Bool.false_or] at h
    rw [h, Bool.or_true]

/-- If the pattern scanner fires on the output of the newline
collapse, from any state, it fires on the input from the same state:
the collapse maps newline runs to a single space, preserving
whitespace gaps between dashes in both directions. -/
theorem hasDWDAux_collapseNLAux :
    ∀ (l : List Char) (b : Bool) (s : WState),
    hasDWDAux s (collapseNLAux b l) = true → hasDWDAux s l = true := by
  intro l
  induction l with
  | nil =>
    intro b s h
    cases s <;> simp [collapseNLAux, hasDWDAux] at h
  | cons c r ih =>
    intro b s h
    have hdS : isDashC ' ' = false := by decide
    have hwS : isWsC ' ' = true := by decide
    by_cases hc : c = '\n'
    · subst hc
      have hwcN : isWsC '\n' = true := by decide
      have hdcN : isDashC '\n' = false := by decide
      cases b with
      | true =>
        rw [show collapseNLAux true ('\n' :: r) = collapseNLAux true r
          from by simp [collapseNLAux]] at h
        have hr := ih true s h
        cases s with
        | no =>
          rw [show hasDWDAux WState.no ('\n' :: r) = hasDWDAux WState.no r
            from by simp [hasDWDAux, hdcN]]
          exact hr
        | dash =>
          rw [show hasDWDAux WState.dash ('\n' :: r) =
            hasDWDAux WState.dashWs r from by simp [hasDWDAux, hdcN, hwcN]]
          exact hasDWDAux_dash_mono hr
        | dashWs =>
          rw [show hasDWDAux WState.dashWs ('\n' :: r) =
            hasDWDAux WState.dashWs r from by simp [hasDWDAux, hdcN, hwcN]]
          exact hr
      | false =>
        rw [show collapseNLAux false ('\n' :: r) =
          ' ' :: collapseNLAux true r from by simp [collapseNLAux]] at h
        cases s with
        | no =>
          rw [show hasDWDAux WState.no (' ' :: collapseNLAux true r) =
            hasDWDAux WState.no (collapseNLAux true r)
            from by simp [hasDWDAux, hdS]] at h
          rw [show hasDWDAux WState.no ('\n' :: r) = hasDWDAux WState.no r
            from by simp [hasDWDAux, hdcN]]
          exact ih true WState.no h
        | dash =>
          rw [show hasDWDAux WState.dash (' ' :: collapseNLAux true r) =
            hasDWDAux WState.dashWs (collapseNLAux true r)
            from by simp [hasDWDAux, hdS, hwS]] at h
          rw [show hasDWDAux WState.dash ('\n' :: r) =
            hasDWDAux WState.dashWs r from by simp [hasDWDAux, hdcN, hwcN]]
          exact ih true WState.dashWs h
        | dashWs =>
          rw [show hasDWDAux WState.dashWs (' ' :: collapseNLAux true r) =
            hasDWDAux WState.dashWs (collapseNLAux true r)
            from by simp [hasDWDAux, hdS, hwS]] at h
          rw [show hasDWDAux WState.dashWs ('\n' :: r) =
            hasDWDAux WState.dashWs r from by simp [hasDWDAux, hdcN, hwcN]]
          exact ih true WState.dashWs h
    · rw [show collapseNLAux b (c :: r) = c :: collapseNLAux false r
        from by simp [collapseNLAux, hc]] at h
      cases s with
      | no =>
        cases hdc : isDashC c with
        | true =>
          rw [show hasDWDAux WState.no (c :: collapseNLAux false r) =
            hasDWDAux WState.dash (collapseNLAux false r)
            from by simp [hasDWDAux, hdc]] at h
          rw [show hasDWDAux WState.no (c :: r) = hasDWDAux WState.dash r
            from by simp [hasDWDAux, hdc]]
          exact ih false WState.dash h
        | false =>
          rw [show hasDWDAux WState.no (c :: collapseNLAux false r) =
            hasDWDAux WState.no (collapseNLAux false r)
            from by simp [hasDWDAux, hdc]] at h
          rw [show hasDWDAux WState.no (c :: r) = hasDWDAux WState.no r
            from by simp [hasDWDAux, hdc]]
          exact ih false WState.no h
      | dash =>
        cases hdc : isDashC c with
        | true =>
          rw [show hasDWDAux WState.dash (c :: collapseNLAux false r) =
            hasDWDAux WState.dash (collapseNLAux false r)
            from by simp [hasDWDAux, hdc]] at h
          rw [show hasDWDAux WState.dash (c :: r) = hasDWDAux WState.dash r
            from by simp [hasDWDAux, hdc]]
          exact ih false WState.dash h
        | false =>
          cases hwc : isWsC c with
          | true =>
            rw [show hasDWDAux WState.dash (c :: collapseNLAux false r) =
              hasDWDAux WState.dashWs (collapseNLAux false r)
              from by simp [hasDWDAux, hdc, hwc]] at h
            rw [show hasDWDAux WState.dash (c :: r) =
              hasDWDAux WState.dashWs r from by simp [hasDWDAux, hdc, hwc]]
            exact ih false WState.dashWs h
          | false =>
            rw [show hasDWDAux WState.dash (c :: collapseNLAux false r) =
              hasDWDAux WState.no (collapseNLAux false r)
              from by simp [hasDWDAux, hdc, hwc]] at h
            rw [show hasDWDAux WState.dash (c :: r) = hasDWDAux WState.no r
              from by simp [hasDWDAux, hdc, hwc]]
            exact ih false WState.no h
      | dashWs =>
        cases hdc : isDashC c with
        | true =>
          rw [show hasDWDAux WState.dashWs (c :: r) = true
            from by simp [hasDWDAux, hdc]]
        | false =>
          cases hwc : isWsC c with
          | true =>
            rw [show hasDWDAux WState.dashWs (c :: collapseNLAux false r) =
              hasDWDAux WState.dashWs (collapseNLAux false r)
              from by simp [hasDWDAux, hdc, hwc]] at h
            rw [show hasDWDAux WState.dashWs (c :: r) =
              hasDWDAux WState.dashWs r from by simp [hasDWDAux, hdc, hwc]]
            exact ih false WState.dashWs h
          | false =>
            rw [show hasDWDAux WState.dashWs (c :: collapseNLAux false r) =
              hasDWDAux WState.no (collapseNLAux false r)
              from by simp [hasDWDAux, hdc, hwc]] at h
            rw [show hasDWDAux WState.dashWs (c :: r) = hasDWDAux WState.no r
              from by simp [hasDWDAux, hdc, hwc]]
            exact ih false WState.no h

/-- The newline collapse preserves absence of the
dash-whitespace-dash pattern. -/
theorem hasDashWsDash_collapseNL {l : List Char}
    (h : hasDashWsDash l = false) :
    hasDashWsDash (collapseNL l) = false := by
  cases hq : hasDashWsDash (collapseNL l) with
  | false => rfl
  | true =>
    exfalso
    have h1 : hasDWDAux WState.no (collapseNL l) = true := by
      rw [(hasDWDAux_spec (collapseNL l)).1]
      exact hq
    have h2 := hasDWDAux_collapseNLAux l false WState.no h1
    rw [(hasDWDAux_spec l).1, h] at h2
    cases h2

/-- Applying the pages substitutions a second time changes nothing
when the original value is free of the dash-whitespace-dash
pattern. -/
theorem pages_second_pass {l : List Char} (h2 : hasDashWsDash l = false) :
    dashToEn (collapseDash (dashToEn (collapseDash l))) =
      dashToEn (collapseDash l) := by
  have hiso : isolatedDashes (collapseDash l) = true :=
    (isolatedDashes_collapseDashAux l DState.norm [] h2
      (by intro x hx; simp at hx)).1
  have hisoE : isolatedDashes (dashToEn (collapseDash l)) = true := by
    rw [show dashToEn (collapseDash l) =
      List.map (fun c => if c = '-' then enDash else c) (collapseDash l)
      from rfl]
    rw [isolatedDashes_map dashToEnChar_classes]
    exact hiso
  rw [collapseDash_of_isolated hisoE]
  exact dashToEn_mapDashHyphen (fun c hc hd => dash_eq_en_of_mem_dashToEn hc hd)

/-- Idempotence of the per-field transform at the character-list
level, assuming a pages value free of the dash-whitespace-dash
pattern. -/
theorem normList_idem (k : String) (lv : List Char)
    (h : k = "pages" → hasDashWsDash lv = false) :
    pagesStep k (titleStep k
      (collapseNL (pagesStep k (titleStep k (collapseNL lv))))) =
      pagesStep k (titleStep k (collapseNL lv)) := by
  by_cases ht : k = "title" ∨ k = "booktitle"
  · have hkp : ¬ (k = "pages") := by
      rcases ht with rfl | rfl <;> decide
    simp only [show ∀ x, pagesStep k x = x from fun x => by
      unfold pagesStep; rw [if_neg hkp]]
    simp only [show ∀ x, titleStep k x = protectTitle x from fun x => by
      unfold titleStep; rw [if_pos ht]]
    have hnl1 : '\n' ∉ collapseNL lv := nl_not_mem_collapseNLAux lv false
    have hnl2 : '\n' ∉ protectTitle (collapseNL lv) :=
      nl_not_mem_protectTitle hnl1
    rw [collapseNL_of_not_mem hnl2]
    exact protectTitle_idem _
  · simp only [show ∀ x, titleStep k x = x from fun x => by
      unfold titleStep; rw [if_neg ht]]
    by_cases hp : k = "pages"
    · have hdwd : hasDashWsDash (collapseNL lv) = false :=
        hasDashWsDash_collapseNL (h hp)
      simp only [show ∀ x, pagesStep k x = dashToEn (collapseDash x) from
        fun x => by unfold pagesStep; rw [if_pos hp]]
      have hX : '\n' ∉ dashToEn (collapseDash (collapseNL lv)) := by
        intro hmem
        rcases mem_dashToEn hmem with h1 | h1
        · rcases mem_collapseDashAux _ DState.norm [] h1 with h2 | h2 | h2
          · simp at h2
          · exact nl_not_mem_collapseNLAux lv false h2
          · exact absurd h2 (by decide)
        · exact absurd h1 (by decide)
      rw [collapseNL_of_not_mem hX]
      exact pages_second_pass hdwd
    · simp only [show ∀ x, pagesStep k x = x from fun x => by
        unfold pagesStep; rw [if_neg hp]]
      exact collapseNL_of_not_mem (nl_not_mem_collapseNLAux lv false)

/-- Idempotence of the per-field transform under the pages
condition. -/
theorem normField_idem (k v : String)
    (h : k = "pages" → hasDashWsDash v.data = false) :
    normField k (normField k v) = normField k v :=
  congrArg String.mk (normList_idem k v.data h)

/-- C5 counterexample: a record whose pages value holds two en-dashes
separated by a space is mapped to adjacent en-dashes by one
normalization and to a single en-dash by a second one, so the
normalizer is not idempotent. -/
theorem c5_counterexample :
    formatter c5entry = [("ENTRYTYPE", "article"), ("pages", "––")] ∧
    formatter (formatter c5entry) = [("ENTRYTYPE", "article"), ("pages", "–")] ∧
    formatter (formatter c5entry) ≠ formatter c5entry := by
  refine ⟨by decide, by decide, by decide⟩

/-- C5 amended: the normalizer is idempotent on every record whose
pages value (when present) contains no two dash characters separated
only by whitespace (newlines are fine: the newline collapse preserves
absence of that pattern); in particular pages 12–34 and protected
titles are stable under re-application. -/
theorem c5_normalizer_idempotent_cond :
    ∀ e : Entry,
    (∀ kv ∈ e, kv.1 = "pages" → hasDashWsDash kv.2.data = false) →
    formatter (formatter e) = formatter e := by
  intro e h
  unfold formatter
  rw [List.map_map]
  apply List.map_congr_left
  intro kv hkv
  simp only [Function.comp_apply]
  exact congrArg (Prod.mk kv.1) (normField_idem _ _ (h kv hkv))

/-- Witness for C5 at a concrete record with an en-dashed pages range
and a protected title, and at one whose pages and title values
contain newlines. -/
theorem c5_witness :
    formatter (formatter c5entryGood) = formatter c5entryGood ∧
    formatter (formatter c5entryNl) = formatter c5entryNl :=
  ⟨c5_normalizer_idempotent_cond c5entryGood (by decide),
   c5_normalizer_idempotent_cond c5entryNl (by decide)⟩

end Pub
